import Mathlib

/-!
# Verification of the automation chain orchestrator and skill executor

A shallow embedding of `backend/app/services/automation_engine.py`,
`backend/app/services/executor.py` (template resolution, skill step loop,
streaming variant) and the chain-context seeding of
`backend/app/services/execute_chain`, together with proofs of the
spec's testable properties.

Python dynamic values (JSON-shaped dicts/lists/strings/ints/bools/None)
are embedded as `JValue`.  Python dicts are association lists with
first-match lookup and replace-in-place update, which matches observable
`get`/`in`/`update`/`{**a, **b}` behaviour of Python dicts whose keys are
unique (hypotheses of the form `Nodup` appear where an arbitrary dict is
quantified).  `json.loads` is embedded as an executable recursive-descent
JSON reader over the character list; its one deliberate simplification is
that non-integer numerals (floats, NaN/Infinity) are not given a meaning:
numerals are JSON integers, which covers every value the code under
verification constructs or inspects.  External collaborators (transports,
vault, skill catalog, cluster pool, LLM analysis, run store) enter as
explicit oracle parameters, exactly at the call sites where the source
invokes them; persistence (`save_fn`, `_save_execution`) is recorded in an
event trace.
-/

namespace Spec2Proof

/-! ## Python-style JSON values -/

/-- A Python value of JSON shape: `str`, `int`, `bool`, `None`, `list`, `dict`. -/
inductive JValue where
  | str (s : String)
  | num (n : Int)
  | bool (b : Bool)
  | null
  | arr (elems : List JValue)
  | obj (fields : List (String × JValue))

/-- A Python dict with string keys, as an association list (unique keys). -/
abbrev Dict := List (String × JValue)

/-- `d.get(key)` — first matching key. -/
def dget : Dict → String → Option JValue
  | [], _ => none
  | (k, v) :: rest, key => if k = key then some v else dget rest key

/-- `d[key] = v` — replace in place, or append if absent (Python insertion order). -/
def dset : Dict → String → JValue → Dict
  | [], key, v => [(key, v)]
  | (k, w) :: rest, key, v =>
    if k = key then (k, v) :: rest else (k, w) :: dset rest key v

/-- `{**a, **b}` / `a.update(b)` — entries of `b` override entries of `a`. -/
def dmergePy (a b : Dict) : Dict :=
  b.foldl (fun acc kv => dset acc kv.1 kv.2) a

/-- Python truthiness of a `JValue`. -/
def truthy : JValue → Bool
  | .str s => !s.isEmpty
  | .num n => n != 0
  | .bool b => b
  | .null => false
  | .arr xs => !xs.isEmpty
  | .obj fs => !fs.isEmpty

/-! ### `str()` / `repr()` -/

/-- Python `repr` of a string: quotes plus basic escapes (the quote choice rule:
double quotes are used when the text has a `\x27` but no `\x22`). -/
def pyReprString (s : String) : String :=
  let hasSingle := s.data.contains '\x27'
  let hasDouble := s.data.contains '\x22'
  let q : Char := if hasSingle && !hasDouble then '\x22' else '\x27'
  let esc : Char → List Char := fun c =>
    if c = '\\' then ['\\', '\\']
    else if c = q then ['\\', q]
    else if c = '\n' then ['\\', 'n']
    else if c = '\r' then ['\\', 'r']
    else if c = '\t' then ['\\', 't']
    else [c]
  String.mk (q :: s.data.flatMap esc ++ [q])

mutual

/-- Python `repr` of a JSON-shaped value. -/
def pyRepr : JValue → String
  | .str s => pyReprString s
  | .num n => toString n
  | .bool true => "True"
  | .bool false => "False"
  | .null => "None"
  | .arr xs => "[" ++ String.intercalate ", " (pyReprList xs) ++ "]"
  | .obj fs => "\x7b" ++ String.intercalate ", " (pyReprFields fs) ++ "\x7d"

/-- `repr` of the elements of a list. -/
def pyReprList : List JValue → List String
  | [] => []
  | v :: rest => pyRepr v :: pyReprList rest

/-- `repr` of the `k: v` items of a dict. -/
def pyReprFields : List (String × JValue) → List String
  | [] => []
  | (k, v) :: rest => (pyReprString k ++ ": " ++ pyRepr v) :: pyReprFields rest

end

/-- Python `str()` of a JSON-shaped value. -/
def pyStr : JValue → String
  | .str s => s
  | v => pyRepr v

/-- `f"..."` interpolation of an `Optional[str]`: `None` prints as `"None"`. -/
def optStr : Option String → String
  | none => "None"
  | some s => s

/-! ## `json.loads` -/

/-- JSON whitespace (as accepted by `json.loads`). -/
def isJsonWs (c : Char) : Bool :=
  c = ' ' || c = '\t' || c = '\n' || c = '\r'

/-- Drop leading JSON whitespace. -/
def skipWs : List Char → List Char
  | [] => []
  | c :: rest => if isJsonWs c then skipWs rest else c :: rest

/-- Hex digit value. -/
def hexVal? (c : Char) : Option Nat :=
  if '0' ≤ c ∧ c ≤ '9' then some (c.toNat - '0'.toNat)
  else if 'a' ≤ c ∧ c ≤ 'f' then some (c.toNat - 'a'.toNat + 10)
  else if 'A' ≤ c ∧ c ≤ 'F' then some (c.toNat - 'A'.toNat + 10)
  else none

/-- Body of a JSON string literal (after the opening quote); returns the decoded
text and the input after the closing quote.  Raw control characters are
rejected, standard escapes and non-surrogate `\uXXXX` are decoded. -/
def parseStrBody (acc : List Char) : List Char → Option (String × List Char)
  | [] => none
  | '\x22' :: rest => some (String.mk acc.reverse, rest)
  | '\\' :: rest =>
    match rest with
    | [] => none
    | e :: rest' =>
      if e = '\x22' then parseStrBody ('\x22' :: acc) rest'
      else if e = '\\' then parseStrBody ('\\' :: acc) rest'
      else if e = '/' then parseStrBody ('/' :: acc) rest'
      else if e = 'n' then parseStrBody ('\n' :: acc) rest'
      else if e = 't' then parseStrBody ('\t' :: acc) rest'
      else if e = 'r' then parseStrBody ('\r' :: acc) rest'
      else if e = 'b' then parseStrBody ('\x08' :: acc) rest'
      else if e = 'f' then parseStrBody ('\x0c' :: acc) rest'
      else if e = 'u' then
        match rest' with
        | h1 :: h2 :: h3 :: h4 :: rest'' =>
          match hexVal? h1, hexVal? h2, hexVal? h3, hexVal? h4 with
          | some a, some b, some c, some d =>
            let code := ((a * 16 + b) * 16 + c) * 16 + d
            if code < 0xd800 ∨ 0xdfff < code then
              parseStrBody (Char.ofNat code :: acc) rest''
            else none
          | _, _, _, _ => none
        | _ => none
      else none
  | c :: rest =>
    if c.toNat < 0x20 then none else parseStrBody (c :: acc) rest

/-- Digit run of a JSON integer. -/
def takeDigits (acc : List Char) : List Char → List Char × List Char
  | [] => (acc.reverse, [])
  | c :: rest =>
    if c.isDigit then takeDigits (c :: acc) rest else (acc.reverse, c :: rest)

/-- Decimal value of a digit list. -/
def digitsToNat (ds : List Char) : Nat :=
  ds.foldl (fun n c => n * 10 + (c.toNat - '0'.toNat)) 0

/-- JSON integer numeral `-?(0|[1-9][0-9]*)` (leading zeros rejected); a
following `.`, `e` or `E` (a float) is rejected — floats are outside this
embedding. -/
def parseNum (cs : List Char) : Option (JValue × List Char) :=
  let (neg, cs') : Bool × List Char :=
    match cs with
    | '-' :: rest => (true, rest)
    | _ => (false, cs)
  match takeDigits [] cs' with
  | ([], _) => none
  | (ds, rest) =>
    if ds.length > 1 ∧ ds.headD '0' = '0' then none
    else
      match rest with
      | '.' :: _ => none
      | 'e' :: _ => none
      | 'E' :: _ => none
      | _ =>
        let n : Int := Int.ofNat (digitsToNat ds)
        some (.num (if neg then -n else n), rest)

mutual

/-- One JSON value (fueled recursive descent). -/
def parseVal (fuel : Nat) (cs : List Char) : Option (JValue × List Char) :=
  match fuel with
  | 0 => none
  | fuel + 1 =>
    match skipWs cs with
    | [] => none
    | '\x22' :: rest => (parseStrBody [] rest).map fun p => (.str p.1, p.2)
    | 't' :: 'r' :: 'u' :: 'e' :: rest => some (.bool true, rest)
    | 'f' :: 'a' :: 'l' :: 's' :: 'e' :: rest => some (.bool false, rest)
    | 'n' :: 'u' :: 'l' :: 'l' :: rest => some (.null, rest)
    | '[' :: rest =>
      (match skipWs rest with
       | ']' :: rest' => some (.arr [], rest')
       | other => parseArrItems fuel other [])
    | '\x7b' :: rest =>
      (match skipWs rest with
       | '\x7d' :: rest' => some (.obj [], rest')
       | other => parseObjItems fuel other [])
    | c :: rest =>
      if c = '-' ∨ c.isDigit then parseNum (c :: rest) else none

/-- Elements of a JSON array after `[` (at least one element pending). -/
def parseArrItems (fuel : Nat) (cs : List Char) (acc : List JValue) :
    Option (JValue × List Char) :=
  match fuel with
  | 0 => none
  | fuel + 1 =>
    match parseVal fuel cs with
    | none => none
    | some (v, rest) =>
      match skipWs rest with
      | ',' :: rest' => parseArrItems fuel rest' (v :: acc)
      | ']' :: rest' => some (.arr (v :: acc).reverse, rest')
      | _ => none

/-- Members of a JSON object after `\x7b` (at least one member pending);
duplicate keys resolve Python-style: last value wins, first position kept. -/
def parseObjItems (fuel : Nat) (cs : List Char) (acc : Dict) :
    Option (JValue × List Char) :=
  match fuel with
  | 0 => none
  | fuel + 1 =>
    match skipWs cs with
    | '\x22' :: rest =>
      match parseStrBody [] rest with
      | none => none
      | some (key, rest') =>
        match skipWs rest' with
        | ':' :: rest'' =>
          match parseVal fuel rest'' with
          | none => none
          | some (v, rest3) =>
            let acc' := dset acc key v
            match skipWs rest3 with
            | ',' :: rest4 => parseObjItems fuel rest4 acc'
            | '\x7d' :: rest4 => some (.obj acc', rest4)
            | _ => none
        | _ => none
    | _ => none

end

/-- `json.loads` on a whole string: one value, optional surrounding whitespace,
no trailing data. -/
def jsonParse (s : String) : Option JValue :=
  match parseVal (s.data.length + 1) s.data with
  | some (v, rest) => if (skipWs rest).isEmpty then some v else none
  | none => none

/-! ## Context template resolver (`automation_engine._resolve_template`)

`re.sub(r"\x7b\x7b(.+?)\x7d\x7d", replacer, template)` with a replacer that
splits the captured path on `.` and walks the context, parsing string hops
as JSON on demand (lines 20–70 of `automation_engine.py`). -/

namespace Engine

/-- Scanner for `re.finditer(r'\x7b[^\x7b\x7d]+\x7d', s)`.  `mode = none`
searches for the next `\x7b`; `mode = some innerAcc` is inside a candidate
group, where a nested `\x7b` restarts the attempt and a `\x7d` closes it
(a non-empty body is required). -/
def braceScan (mode : Option (List Char)) : List Char → List String
  | [] => []
  | c :: rest =>
    match mode with
    | none =>
      if c = '\x7b' then braceScan (some []) rest
      else braceScan none rest
    | some innerAcc =>
      if c = '\x7b' then braceScan (some []) rest
      else if c = '\x7d' then
        if innerAcc.isEmpty then braceScan none rest
        else String.mk ('\x7b' :: innerAcc.reverse ++ ['\x7d']) :: braceScan none rest
      else braceScan (some (c :: innerAcc)) rest

/-- Matches of `re.finditer(r'\x7b[^\x7b\x7d]+\x7d', s)`: leftmost,
non-overlapping, single-level brace groups with a non-empty body. -/
def braceFinds (cs : List Char) : List String :=
  braceScan none cs

/-- The `except` fallback of the string hop (lines 52–65): the first
single-level brace group that parses as a JSON object containing the needed
key; `none` means `found = False` (return the literal placeholder). -/
def findKeyInBraces (s : String) (part : String) : Option JValue :=
  (braceFinds s.data).foldr
    (fun m acc =>
      match jsonParse m with
      | some (.obj fs) =>
        match dget fs part with
        | some v => some v
        | none => acc
      | _ => acc)
    none

/-- Python `path.split(".")` over characters. -/
def splitDots : List Char → List (List Char)
  | [] => [[]]
  | c :: rest =>
    if c = '.' then [] :: splitDots rest
    else
      match splitDots rest with
      | [] => [[c]]
      | p :: ps => (c :: p) :: ps

/-- `path.split(".")`. -/
def splitPath (path : String) : List String :=
  (splitDots path.data).map String.mk

/-- The `for part in parts` walk of the replacer (lines 38–67).  `none`
models `return match.group(0)` (keep the placeholder literal); dict hops
default a missing key to the empty string, string hops parse as JSON
(an object descends, another value keeps the literal, a parse failure
scans for embedded single-level objects). -/
def walkParts : JValue → List String → Option JValue
  | v, [] => some v
  | .obj fs, part :: rest => walkParts ((dget fs part).getD (.str "")) rest
  | .str s, part :: rest =>
    (match jsonParse s with
     | some (.obj fs) => walkParts ((dget fs part).getD (.str "")) rest
     | some _ => none
     | none =>
       match findKeyInBraces s part with
       | some v => walkParts v rest
       | none => none)
  | _, _ :: _ => none

/-- The whole replacer body: walk the path; a `none` walk keeps the
original matched text, otherwise `str(obj) if obj else ""`. -/
def replaceGroup (context : JValue) (path : String) (orig : String) : String :=
  match walkParts context (splitPath path) with
  | none => orig
  | some v => if truthy v then pyStr v else ""

/-- Lazy close scan of `re` pattern `\x7b\x7b(.+?)\x7d\x7d`: the earliest
`\x7d\x7d` with at least one captured character; `.` does not match a
newline, so a newline aborts the attempt. -/
def findCloseCtx (acc : List Char) : List Char → Option (List Char × List Char)
  | [] => none
  | c :: rest =>
    if c = '\x7d' ∧ rest.head? = some '\x7d' then
      if acc.isEmpty then findCloseCtx ['\x7d'] rest
      else some (acc.reverse, rest.tail)
    else if c = '\n' then none
    else findCloseCtx (c :: acc) rest

/-- A successful close scan consumes at least the two closing braces. -/
theorem findCloseCtx_lt (acc cs : List Char) (inner rest' : List Char)
    (h : findCloseCtx acc cs = some (inner, rest')) : rest'.length < cs.length := by
  induction cs generalizing acc with
  | nil => simp [findCloseCtx] at h
  | cons c rest ih =>
    rw [findCloseCtx] at h
    split at h
    · split at h
      · exact Nat.lt_trans (ih _ h) (by simp)
      · simp only [Option.some.injEq, Prod.mk.injEq] at h
        have h2 : rest.tail.length ≤ rest.length := by
          rw [List.length_tail]
          omega
        rw [← h.2]
        simp only [List.length_cons]
        omega
    · split at h
      · simp at h
      · exact Nat.lt_trans (ih _ h) (by simp)

/-- `re.sub(r"\x7b\x7b(.+?)\x7d\x7d", replacer, template)` over characters:
at each `\x7b\x7b`, lazily find the close and splice the replacement; a
failed attempt advances one character.  The fuel argument (always at least
the remaining length plus one, see `subTemplate`) only forces structural
recursion; it never runs out. -/
def subTemplateF (context : JValue) : Nat → List Char → List Char
  | 0, cs => cs
  | fuel + 1, cs =>
    match cs with
    | '\x7b' :: '\x7b' :: rest =>
      (match findCloseCtx [] rest with
       | some (inner, rest') =>
         (replaceGroup context (String.mk inner)
           (String.mk ('\x7b' :: '\x7b' :: inner ++ ['\x7d', '\x7d']))).data
           ++ subTemplateF context fuel rest'
       | none => '\x7b' :: subTemplateF context fuel ('\x7b' :: rest))
    | c :: rest => c :: subTemplateF context fuel rest
    | [] => []

/-- `re.sub` of the context-placeholder pattern over a character list. -/
def subTemplate (context : JValue) (cs : List Char) : List Char :=
  subTemplateF context (cs.length + 1) cs

/-- `automation_engine._resolve_template`: resolve `\x7b\x7bchain.x\x7d\x7d` /
`\x7b\x7bsteps.step-id.output.x\x7d\x7d` placeholders against the run
context. -/
def resolve_template (template : String) (context : JValue) : String :=
  String.mk (subTemplate context template.data)

end Engine

/-! ## Flat template resolver (`executor._resolve_template`)

Per-skill `\x7b\x7bparam\x7d\x7d` substitution with REST-payload escaping,
then stripping of leftover placeholders and duplicate-space cleanup
(lines 45–63 of `executor.py`). -/

namespace Executor

/-- Does `pat` begin `cs`? -/
def startsWithL (pat cs : List Char) : Bool :=
  match pat, cs with
  | [], _ => true
  | _ :: _, [] => false
  | p :: ps, c :: rest => p = c && startsWithL ps rest

/-- `str.find(pat)`: index of the first occurrence, `none` if absent. -/
def findIdxL (pat : List Char) : List Char → Option Nat
  | [] => if pat.isEmpty then some 0 else none
  | c :: rest =>
    if startsWithL pat (c :: rest) then some 0
    else (findIdxL pat rest).map (· + 1)

/-- `str.replace(pat, repl)`: all non-overlapping occurrences, left to
right.  The fuel argument only forces structural recursion. -/
def replaceAllF (pat repl : List Char) : Nat → List Char → List Char
  | 0, cs => cs
  | fuel + 1, cs =>
    match cs with
    | [] => []
    | c :: rest =>
      if !pat.isEmpty && startsWithL pat (c :: rest) then
        repl ++ replaceAllF pat repl fuel ((c :: rest).drop pat.length)
      else c :: replaceAllF pat repl fuel rest

/-- `str.replace(pat, repl)` over character lists. -/
def replaceAllL (pat repl cs : List Char) : List Char :=
  replaceAllF pat repl (cs.length + 1) cs

/-- The JSON escaping applied to values substituted inside REST payloads:
`\\`, `\x22`, newline, carriage return, tab (sequential `str.replace`
calls, equivalent to this per-character map). -/
def jsonEscape (s : String) : String :=
  String.mk (s.data.flatMap fun c =>
    if c = '\\' then ['\\', '\\']
    else if c = '\x22' then ['\\', '\x22']
    else if c = '\n' then ['\\', 'n']
    else if c = '\r' then ['\\', 'r']
    else if c = '\t' then ['\\', 't']
    else [c])

/-- Scan after `\x7b\x7b` for `re` pattern `\x7b\x7b[^\x7d]+\x7d\x7d`:
a greedy run of non-`\x7d` characters (at least one) that must be followed
immediately by `\x7d\x7d`; returns the rest after the close. -/
def stripScan (n : Nat) : List Char → Option (List Char)
  | '\x7d' :: '\x7d' :: rest => if n = 0 then none else some rest
  | '\x7d' :: _ => none
  | _ :: rest => stripScan (n + 1) rest
  | [] => none

/-- `re.sub(r"\x7b\x7b[^\x7d]+\x7d\x7d", "", s)` — drop unresolved
placeholders.  The fuel argument only forces structural recursion. -/
def stripPhF : Nat → List Char → List Char
  | 0, cs => cs
  | fuel + 1, cs =>
    match cs with
    | '\x7b' :: '\x7b' :: rest =>
      (match stripScan 0 rest with
       | some rest' => stripPhF fuel rest'
       | none => '\x7b' :: stripPhF fuel ('\x7b' :: rest))
    | c :: rest => c :: stripPhF fuel rest
    | [] => []

/-- Drop unresolved placeholders from a character list. -/
def stripPh (cs : List Char) : List Char :=
  stripPhF (cs.length + 1) cs

/-- `re.sub(r"  +", " ", s)` — collapse runs of two or more spaces. -/
def collapseSpaces : List Char → List Char
  | ' ' :: ' ' :: rest => collapseSpaces (' ' :: rest)
  | c :: rest => c :: collapseSpaces rest
  | [] => []

/-- Python `str.strip()` whitespace. -/
def isPyWs (c : Char) : Bool :=
  c = ' ' || c = '\t' || c = '\n' || c = '\r' || c = '\x0b' || c = '\x0c'

/-- `str.strip()`. -/
def pyStrip (cs : List Char) : List Char :=
  ((cs.dropWhile isPyWs).reverse.dropWhile isPyWs).reverse

/-- `executor._resolve_template`: for each `(key, value)` of the parameter
dict (in insertion order) replace every `\x7b\x7bkey\x7d\x7d` by
`str(value)` — JSON-escaped when the transport is `icontrol_rest` and the
first occurrence is directly preceded by a double quote — then strip
leftover placeholders, collapse duplicate spaces and trim. -/
def resolve_template (template : String) (params : Dict) (transport : String) : String :=
  let subst := params.foldl
    (fun (result : List Char) kv =>
      let valStr := pyStr kv.2
      let placeholder := ('\x7b' :: '\x7b' :: kv.1.data) ++ ['\x7d', '\x7d']
      let valStr :=
        if transport = "icontrol_rest" then
          match findIdxL placeholder result with
          | some idx =>
            if 0 < idx ∧ (result.drop (idx - 1)).head? = some '\x22' then
              jsonEscape valStr
            else valStr
          | none => valStr
        else valStr
      replaceAllL placeholder valStr.data result)
    template.data
  String.mk (pyStrip (collapseSpaces (stripPh subst)))

end Executor

/-! ## Skill execution (`executor.execute_skill` and the streaming variant)

The transport dispatch (lines 242–281: SSH / iControl / Proxmox routing,
target overrides, credential pair selection) parameterises one remote call
per step; its outcome — the `exec_result` dict, or a raised exception — is
supplied by the per-step oracle `Nat → TOutcome`, and the measured elapsed
time by `dur`.  The LLM analysis collaborator is the oracle
`String → Option String` applied to the combined output (the parameters
and analysis config passed alongside are fixed per execution). -/

/-- `ExecutionStatus` (`models/__init__.py` lines 133–141). -/
inductive ExecStatus where
  | pending
  | awaiting_approval
  | running
  | analyzing
  | complete
  | failed
  | cancelled
  | rolled_back
deriving DecidableEq

/-- `.value` of the status enum. -/
def ExecStatus.value : ExecStatus → String
  | .pending => "pending"
  | .awaiting_approval => "awaiting_approval"
  | .running => "running"
  | .analyzing => "analyzing"
  | .complete => "complete"
  | .failed => "failed"
  | .cancelled => "cancelled"
  | .rolled_back => "rolled_back"

/-- `StepResult` (`models/__init__.py` lines 144–150). -/
structure StepRes where
  step_name : String
  status : ExecStatus
  command : String
  output : String
  error : Option String
  duration_ms : Nat

/-- The `exec_result` dict a transport returns. -/
structure TRes where
  output : Option String
  error : Option String
  success : Option Bool

/-- Outcome of one transport call: a result dict, or a raised exception. -/
inductive TOutcome where
  | res (r : TRes)
  | exn (msg : String)

/-- A step definition dict of a skill (fields read via `.get` with the
defaults used at each use site). -/
structure SkStep where
  name : Option String
  transport : Option String
  command_template : Option String
  timeout : Option Nat
  target : Option String
  continue_on_fail : Option Bool
  label : Option String

/-- The `analysis` sub-dict of a skill. -/
structure AnalysisCfg where
  enabled : Option Bool
  prompt_template : Option String

/-- A skill definition dict. -/
structure Skill where
  steps : List SkStep
  analysis : Option AnalysisCfg

/-- `analysis_config.get("enabled") and analysis_config.get("prompt_template")`. -/
def analysisWanted (sk : Skill) : Bool :=
  match sk.analysis with
  | none => false
  | some a => a.enabled.getD false && !(a.prompt_template.getD "").isEmpty

/-- `ExecutionRequest`. -/
structure ExecRequest where
  skill_name : String
  device_hostname : String
  parameters : Dict

/-- `ExecutionResult` (timestamps are opaque strings). -/
structure ExecutionResultM where
  execution_id : String
  skill_name : String
  device_hostname : String
  status : ExecStatus
  parameters : Dict
  steps : List StepRes
  analysis : Option String
  started_at : Option String
  completed_at : Option String
  error : Option String

/-- Intra-skill output forwarding (lines 295–305): a successful step whose
output parses as a JSON object merges its keys into the running parameter
context, and `vmid` also populates `new_vmid` when the latter is absent
after the merge. -/
def forwardParams (params : Dict) (output : String) : Dict :=
  match jsonParse output with
  | some (.obj fs) =>
    let p := dmergePy params fs
    match dget fs "vmid" with
    | some v => if (dget p "new_vmid").isNone then dset p "new_vmid" v else p
    | none => p
  | _ => params

namespace Executor

/-- Mutable state of the non-streaming step loop: `result.steps`,
`all_output`, `running_params`, `result.error` and whether a stopping
failure occurred. -/
structure NsState where
  steps : List StepRes
  allOutput : List String
  runningParams : Dict
  error : Option String
  failed : Bool

/-- The marker appended to a failed step\x27s recorded output when
`continue_on_fail` is set (line 312). -/
def failMarker (error : Option String) : String :=
  "\n[Step failed but allowed to continue: " ++ optStr error ++ "]"

/-- The `for step_def in skill.get("steps", [])` loop of `execute_skill`
(lines 189–323), recursing over the remaining step definitions with `i`
the position fed to the transport oracle. -/
def nsLoop (oracle : Nat → TOutcome) (dur : Nat → Nat) :
    List SkStep → Nat → NsState → NsState
  | [], _, st => st
  | sd :: rest, i, st =>
    let step_name := sd.name.getD "unknown"
    let transport := sd.transport.getD "ssh"
    let command := resolve_template (sd.command_template.getD "") st.runningParams transport
    match oracle i with
    | .exn msg =>
      let sr : StepRes := ⟨step_name, .failed, command, "", some msg, 0⟩
      { st with steps := st.steps ++ [sr], failed := true,
                error := some ("Step \x27" ++ step_name ++ "\x27 exception: " ++ msg) }
    | .res tr =>
      let success := tr.success.getD false
      let output := tr.output.getD ""
      let sr : StepRes :=
        ⟨step_name, if success then .complete else .failed, command, output, tr.error, dur i⟩
      let allOutput := st.allOutput ++ ["=== " ++ step_name ++ " ===\n" ++ output]
      let params :=
        if success && !output.isEmpty then forwardParams st.runningParams output
        else st.runningParams
      if success then
        nsLoop oracle dur rest (i + 1)
          { st with steps := st.steps ++ [sr], allOutput := allOutput, runningParams := params }
      else if sd.continue_on_fail.getD false then
        let sr := { sr with output := output ++ failMarker tr.error }
        nsLoop oracle dur rest (i + 1)
          { st with steps := st.steps ++ [sr], allOutput := allOutput, runningParams := params }
      else
        { st with steps := st.steps ++ [sr], allOutput := allOutput, runningParams := params,
                  failed := true,
                  error := some ("Step \x27" ++ step_name ++ "\x27 failed: " ++ optStr tr.error) }

/-- `executor.execute_skill`: load the skill and the device credentials
(`none` models the not-found branches), run the step loop, then analysis;
the returned result is the one passed to `_save_execution`. -/
def execute_skill (skill? : Option Skill) (creds? : Option Unit)
    (oracle : Nat → TOutcome) (dur : Nat → Nat) (analyze : String → Option String)
    (req : ExecRequest) (execution_id started_at completed_at : String) :
    ExecutionResultM :=
  match skill? with
  | none =>
    { execution_id := execution_id, skill_name := req.skill_name,
      device_hostname := req.device_hostname, status := .failed,
      parameters := req.parameters, steps := [], analysis := none,
      started_at := some started_at, completed_at := none,
      error := some ("Skill \x27" ++ req.skill_name ++ "\x27 not found") }
  | some skill =>
    match creds? with
    | none =>
      { execution_id := execution_id, skill_name := req.skill_name,
        device_hostname := req.device_hostname, status := .failed,
        parameters := req.parameters, steps := [], analysis := none,
        started_at := some started_at, completed_at := none,
        error := some ("No credentials found for device \x27" ++ req.device_hostname ++ "\x27") }
    | some _ =>
      let st := nsLoop oracle dur skill.steps 0 ⟨[], [], req.parameters, none, false⟩
      let analysis :=
        if !st.failed && analysisWanted skill then
          analyze (String.intercalate "\n\n" st.allOutput)
        else none
      { execution_id := execution_id, skill_name := req.skill_name,
        device_hostname := req.device_hostname,
        status := if st.failed then .failed else .complete,
        parameters := req.parameters, steps := st.steps, analysis := analysis,
        started_at := some started_at, completed_at := some completed_at,
        error := st.error }

/-! ### Streaming variant (`execute_skill_streaming`, lines 347–562) -/

/-- The SSE events the streaming generator yields. -/
inductive SEvent where
  | errorEv (msg : String)
  | execStart (execution_id skill_name device_hostname : String) (total_steps : Nat)
  | stepStart (step_index : Nat) (step_name step_label : String) (total_steps : Nat)
  | stepComplete (step_index : Nat) (step_name : String) (status : String)
      (output : String) (error : Option String) (duration_ms : Nat) (total_steps : Nat)
  | analyzingEv
  | execComplete (execution_id : String) (status : String) (result : ExecutionResultM)

/-- An entry of the streaming loop\x27s `all_step_results`. -/
structure SStep where
  step_name : String
  status : ExecStatus
  output : String
  error : Option String
  duration_ms : Nat

/-- What the streaming step loop produces: yielded events, `all_step_results`,
`all_output`, the final running params and the `failed` flag. -/
structure SLoopOut where
  evs : List SEvent
  entries : List SStep
  aos : List String
  params : Dict
  failed : Bool

/-- The `for i, step_def in enumerate(steps)` loop of the streaming variant
(lines 389–528), over the same per-step transport oracle. -/
def sLoop (oracle : Nat → TOutcome) (dur : Nat → Nat) (total_steps : Nat) :
    List SkStep → Nat → Dict → SLoopOut
  | [], _, params => ⟨[], [], [], params, false⟩
  | sd :: rest, i, params =>
    let step_name := sd.name.getD "unknown"
    let transport := sd.transport.getD "ssh"
    let _command := resolve_template (sd.command_template.getD "") params transport
    let startEv := SEvent.stepStart i step_name (sd.label.getD step_name) total_steps
    match oracle i with
    | .exn msg =>
      let entry : SStep := ⟨step_name, .failed, "", some msg, dur i⟩
      ⟨[startEv, .stepComplete i step_name "failed" "" (some msg) (dur i) total_steps],
       [entry], [], params, true⟩
    | .res tr =>
      let success := tr.success.getD false
      let output := tr.output.getD ""
      let entry : SStep :=
        ⟨step_name, if success then .complete else .failed, output, tr.error, dur i⟩
      let evs := [startEv,
        SEvent.stepComplete i step_name (if success then "complete" else "failed")
          (String.mk (output.data.take 2000)) tr.error (dur i) total_steps]
      let ao := "=== " ++ step_name ++ " ===\n" ++ output
      if !success && !(sd.continue_on_fail.getD false) then
        ⟨evs, [entry], [ao], params, true⟩
      else
        let params' :=
          if success && !output.isEmpty then forwardParams params output else params
        let restOut := sLoop oracle dur total_steps rest (i + 1) params'
        ⟨evs ++ restOut.evs, entry :: restOut.entries, ao :: restOut.aos,
         restOut.params, restOut.failed⟩

/-- `executor.execute_skill_streaming`: the yielded event list, together
with the result passed to `_save_execution` (`none` when the generator
bails out before building one). -/
def execute_skill_streaming (skill? : Option Skill) (creds? : Option Unit)
    (oracle : Nat → TOutcome) (dur : Nat → Nat) (analyze : String → Option String)
    (req : ExecRequest) (execution_id started_at completed_at : String) :
    List SEvent × Option ExecutionResultM :=
  match skill? with
  | none => ([.errorEv ("Skill \x27" ++ req.skill_name ++ "\x27 not found")], none)
  | some skill =>
    match creds? with
    | none =>
      ([.errorEv ("No credentials for \x27" ++ req.device_hostname ++ "\x27")], none)
    | some _ =>
      let total_steps := skill.steps.length
      let out := sLoop oracle dur total_steps skill.steps 0 req.parameters
      let analysisEvs : List SEvent :=
        if !out.failed && analysisWanted skill then [SEvent.analyzingEv] else []
      let analysis : Option String :=
        if !out.failed && analysisWanted skill then
          analyze (String.intercalate "\n\n" out.aos)
        else none
      let result : ExecutionResultM :=
        { execution_id := execution_id, skill_name := req.skill_name,
          device_hostname := req.device_hostname,
          status := if out.failed then .failed else .complete,
          parameters := req.parameters,
          steps := out.entries.map fun s =>
            ⟨s.step_name, s.status, "", s.output, s.error, s.duration_ms⟩,
          analysis := analysis,
          started_at := some started_at, completed_at := some completed_at,
          error := none }
      (SEvent.execStart execution_id req.skill_name req.device_hostname total_steps
         :: (out.evs ++ analysisEvs
             ++ [SEvent.execComplete execution_id
                  (if out.failed then "failed" else "complete") result]),
       some result)

end Executor

/-! ## Chain orchestration (`automation_engine.py`)

`_execute_step` invokes `executor.execute_skill`; its outcome — an
`ExecutionResult`, or a raised exception — is supplied per chain-step
index by an oracle `Nat → SkillOutcome`.  `save_fn` (the run store's
`_save_run`) is recorded as a `save` event carrying a snapshot of the run
at the moment of the call; `attempt i` marks the loop body passing the
gate check for step `i`.  `datetime.now(...).isoformat()` is the opaque
string `now`. -/

namespace Engine

/-- Outcome of `executor.execute_skill` for one chain step: a result, or a
raised exception caught at line 207. -/
inductive SkillOutcome where
  | res (r : ExecutionResultM)
  | exn (msg : String)

/-- A `ChainStep` dict (fields read via `.get` with the defaults used at
each use site; `parameters` / `parameter_map` values are template strings). -/
structure ChainStep where
  id : Option String
  skill_name : String
  label : Option String
  gate : Option String
  on_failure : Option String
  device_source : Option String
  device_hostname : Option String
  device_from_step : Option String
  device_param : Option String
  parameters : List (String × String)
  parameter_map : List (String × String)

/-- An automation (chain) definition: the fields `execute_chain` reads. -/
structure Automation where
  name : String
  steps : List ChainStep

/-- A chain step result dict (`_make_step_result`, lines 103–116). -/
structure ChainStepResult where
  step_id : String
  skill_name : String
  label : String
  status : String
  execution_id : Option String
  output_preview : String
  analysis : Option String
  duration_ms : Nat
  device : JValue
  error : Option String

/-- `_make_step_result` with the kwargs defaults. -/
def mk_step_result (step_id : String) (step : ChainStep) (status : String)
    (execution_id : Option String) (output_preview : String)
    (analysis : Option String) (duration_ms : Nat)
    (device : JValue) (error : Option String) : ChainStepResult :=
  { step_id := step_id, skill_name := step.skill_name,
    label := step.label.getD step.skill_name, status := status,
    execution_id := execution_id, output_preview := output_preview,
    analysis := analysis, duration_ms := duration_ms, device := device,
    error := error }

/-- The `Run` dict (`execute_chain`, lines 252–264).  A missing
`waiting_step` key is `none`. -/
structure RunState where
  id : String
  automation_id : String
  automation_name : String
  status : String
  chain_params : Dict
  current_step : Nat
  total_steps : Nat
  step_results : List ChainStepResult
  started_at : String
  completed_at : Option String
  waiting_step : Option Nat
  context_chain : Dict
  context_steps : Dict

/-- `run["context"]` as a value for the context template resolver. -/
def ctxVal (run : RunState) : JValue :=
  .obj [("chain", .obj run.context_chain), ("steps", .obj run.context_steps)]

/-- `_resolve_device` (lines 73–83). -/
def resolve_device (step : ChainStep) (run : RunState) : JValue :=
  let source := step.device_source.getD "parameter"
  if source = "fixed" then .str (step.device_hostname.getD "")
  else if source = "previous_step" then
    let ref := step.device_from_step.getD ""
    match dget run.context_steps ref with
    | some (.obj e) => (dget e "device").getD (.str "")
    | _ => .str ""
  else
    let param_name := step.device_param.getD "device"
    (dget run.context_chain param_name).getD (.str "")

/-- `_build_step_params` (lines 86–100): all chain params as defaults,
overlaid with the step\x27s explicit `parameters` and `parameter_map`
resolved through the context template resolver. -/
def build_step_params (step : ChainStep) (run : RunState) : Dict :=
  let ctx := ctxVal run
  let params := step.parameters.foldl
    (fun p kv => dset p kv.1 (.str (resolve_template kv.2 ctx))) run.context_chain
  step.parameter_map.foldl
    (fun p kv => dset p kv.1 (.str (resolve_template kv.2 ctx))) params

/-- `Optional[str]` as a context value (`None` → JSON null). -/
def optJ : Option String → JValue
  | none => .null
  | some s => .str s

/-- `_execute_step` after the `execute_skill` call (lines 129–156): the
summarized chain step result, the context entry (output parsed into an
object when possible) and the execution status. -/
def execute_step (step : ChainStep) (step_id : String) (device : JValue)
    (r : ExecutionResultM) : ChainStepResult × JValue × ExecStatus :=
  let combined :=
    String.intercalate "\n" ((r.steps.map (·.output)).filter (fun o => !o.isEmpty))
  let step_result := mk_step_result step_id step r.status.value
    (some r.execution_id) (String.mk (combined.data.take 500)) r.analysis
    ((r.steps.map (·.duration_ms)).sum) device none
  let outVal : JValue :=
    match jsonParse combined with
    | some (.obj fs) => .obj fs
    | _ => .str combined
  let ctx_entry : JValue := .obj
    [("output", outVal), ("status", .str r.status.value),
     ("execution_id", .str r.execution_id), ("device", device),
     ("analysis", optJ r.analysis)]
  (step_result, ctx_entry, r.status)

/-- Events of a chain run: a step attempt entering the loop body past the
gate, and a `save_fn` call with the run snapshot it persists. -/
inductive Ev where
  | attempt (i : Nat) : Ev
  | save (r : RunState) : Ev

/-- `_run_steps` (lines 159–222) over the remaining steps, `i` being the
absolute step index (the list argument is always `steps.drop i`). -/
def run_steps_go (oracle : Nat → SkillOutcome) (now : String) (on_gate : String)
    (start_idx : Nat) : List ChainStep → Nat → RunState → RunState × List Ev
  | [], _, run =>
    let run := { run with status := "complete", completed_at := some now }
    (run, [.save run])
  | step :: rest, i, run =>
    let step_id := step.id.getD ("step-" ++ toString (i + 1))
    let run := { run with current_step := i + 1 }
    if step.gate = some "approve" ∧ on_gate = "pause"
        ∧ (start_idx < i ∨ run.status ≠ "running") then
      let run := { run with status := "waiting_approval", waiting_step := some i }
      (run, [.save run])
    else
      let device := resolve_device step run
      let _params := build_step_params step run
      if truthy device = false then
        let sr := mk_step_result step_id step "failed" none "" none 0 (.str "")
          (some "Could not resolve device")
        let run := { run with step_results := run.step_results ++ [sr] }
        if step.on_failure = some "stop" then
          let run := { run with status := "failed", completed_at := some now }
          (run, [.attempt i, .save run])
        else
          let next := run_steps_go oracle now on_gate start_idx rest (i + 1) run
          (next.1, .attempt i :: next.2)
      else
        match oracle i with
        | .exn msg =>
          let sr := mk_step_result step_id step "failed" none "" none 0 (.str "")
            (some msg)
          let run := { run with step_results := run.step_results ++ [sr] }
          if step.on_failure = some "stop" then
            let run := { run with status := "failed", completed_at := some now }
            (run, [.attempt i, .save run])
          else
            let next := run_steps_go oracle now on_gate start_idx rest (i + 1) run
            (next.1, .attempt i :: .save run :: next.2)
        | .res r =>
          let out := execute_step step step_id device r
          let run := { run with
            step_results := run.step_results ++ [out.1],
            context_steps := dset run.context_steps step_id out.2.1 }
          if out.2.2 = .failed ∨ out.2.2 = .rolled_back then
            let failure_action := step.on_failure.getD "stop"
            if failure_action = "stop" then
              let run := { run with status := "failed", completed_at := some now }
              (run, [.attempt i, .save run])
            else if failure_action = "skip" then
              let next := run_steps_go oracle now on_gate start_idx rest (i + 1) run
              (next.1, .attempt i :: next.2)
            else
              let next := run_steps_go oracle now on_gate start_idx rest (i + 1) run
              (next.1, .attempt i :: .save run :: next.2)
          else
            let next := run_steps_go oracle now on_gate start_idx rest (i + 1) run
            (next.1, .attempt i :: .save run :: next.2)

/-- `_run_steps(automation, run, start_idx, on_gate, save_fn)`. -/
def run_steps (oracle : Nat → SkillOutcome) (now : String) (auto : Automation)
    (run : RunState) (start_idx : Nat) (on_gate : String) : RunState × List Ev :=
  run_steps_go oracle now on_gate start_idx (auto.steps.drop start_idx) start_idx run

/-- `execute_chain` (lines 225–267): build the chain context — cluster
pool params merged as defaults when a truthy `cluster_id` is supplied and
the pool returns a non-empty map — create the run and enter the step loop.
`none` models the `Automation not found` error return (no run is created);
the cluster pool collaborator `get_cluster_params` is the oracle `pool`. -/
def execute_chain (getAuto : String → Option Automation)
    (pool : JValue → Option Dict) (oracle : Nat → SkillOutcome)
    (automation_id : String) (chain_params : Dict) (on_gate : String)
    (run_id now : String) : Option (RunState × List Ev) :=
  match getAuto automation_id with
  | none => none
  | some auto =>
    let chain_context := chain_params
    let chain_context :=
      match dget chain_params "cluster_id" with
      | some cid =>
        if truthy cid then
          match pool cid with
          | some cluster_params =>
            if cluster_params.isEmpty then chain_context
            else dmergePy cluster_params chain_context
          | none => chain_context
        else chain_context
      | none => chain_context
    let run : RunState :=
      { id := run_id, automation_id := automation_id, automation_name := auto.name,
        status := "running", chain_params := chain_params, current_step := 0,
        total_steps := auto.steps.length, step_results := [], started_at := now,
        completed_at := none, waiting_step := none,
        context_chain := chain_context, context_steps := [] }
    some (run_steps oracle now auto run 0 on_gate)

/-- Result of `resume_chain_run`: the error dicts, or the resumed run. -/
inductive ResumeOut where
  | err (msg : String)
  | ok (r : RunState)

/-- `resume_chain_run` (lines 270–296). -/
def resume_chain_run (getRun : String → Option RunState)
    (getAuto : String → Option Automation) (oracle : Nat → SkillOutcome)
    (run_id action now : String) : ResumeOut × List Ev :=
  match getRun run_id with
  | none => (.err "Run not found", [])
  | some run =>
    if run.status ≠ "waiting_approval" then
      (.err ("Run not waiting approval (status: " ++ run.status ++ ")"), [])
    else if action = "reject" then
      let run := { run with status := "cancelled", completed_at := some now }
      (.ok run, [.save run])
    else
      match getAuto run.automation_id with
      | none => (.err "Automation definition not found", [])
      | some auto =>
        let start_idx := run.waiting_step.getD 0
        let run := { run with status := "running", waiting_step := none }
        let out := run_steps oracle now auto run start_idx "pause"
        (.ok out.1, out.2)

end Engine

/-! ## Dict lemmas -/

theorem dget_dset (d : Dict) (k : String) (v : JValue) (key : String) :
    dget (dset d k v) key = if key = k then some v else dget d key := by
  induction d with
  | nil =>
    by_cases h : key = k
    · simp [dset, dget, h]
    · have h' : ¬k = key := fun hh => h hh.symm
      simp [dset, dget, h, h']
  | cons kv rest ih =>
    obtain ⟨k0, v0⟩ := kv
    by_cases h0 : k0 = k
    · subst h0
      by_cases h : key = k0
      · simp [dset, dget, h]
      · have h' : ¬k0 = key := fun hh => h hh.symm
        simp [dset, dget, h, h']
    · by_cases h : k0 = key
      · subst h
        simp [dset, dget, h0]
      · simp [dset, dget, h0, h, ih]

theorem dget_dmergePy_notmem (a b : Dict) (key : String)
    (h : key ∉ b.map Prod.fst) : dget (dmergePy a b) key = dget a key := by
  induction b generalizing a with
  | nil => simp [dmergePy]
  | cons kv rest ih =>
    obtain ⟨k0, v0⟩ := kv
    simp only [List.map_cons, List.mem_cons] at h
    push_neg at h
    have step : dmergePy a ((k0, v0) :: rest) = dmergePy (dset a k0 v0) rest := by
      simp [dmergePy, List.foldl_cons]
    rw [step, ih _ h.2, dget_dset]
    simp [h.1]

/-- Lookup through `\x7b**a, **b\x7d`: `b` wins, `a` is the fallback
(for `b` the entries of a Python dict, i.e. unique keys). -/
theorem dget_dmergePy (a b : Dict) (key : String)
    (hb : (b.map Prod.fst).Nodup) :
    dget (dmergePy a b) key = (dget b key).or (dget a key) := by
  induction b generalizing a with
  | nil => simp [dmergePy, dget]
  | cons kv rest ih =>
    obtain ⟨k0, v0⟩ := kv
    simp only [List.map_cons, List.nodup_cons] at hb
    have step : dmergePy a ((k0, v0) :: rest) = dmergePy (dset a k0 v0) rest := by
      simp [dmergePy, List.foldl_cons]
    by_cases h : key = k0
    · subst h
      rw [step, dget_dmergePy_notmem _ _ _ hb.1, dget_dset]
      simp [dget]
    · have h' : ¬k0 = key := fun hh => h hh.symm
      rw [step, ih _ hb.2, dget_dset]
      simp [dget, h, h']

/-! ## Trace lemmas for the chain step loop -/

namespace Engine

/-- Indices of the step attempts in a trace. -/
def attemptIdxs (evs : List Ev) : List Nat :=
  evs.filterMap fun e => match e with | .attempt i => some i | _ => none

/-- `step_results` lengths of the run snapshots passed to `save_fn`. -/
def saveLens (evs : List Ev) : List Nat :=
  evs.filterMap fun e => match e with | .save r => some r.step_results.length | _ => none

/-- Does a `save_fn` call directly follow every step attempt? -/
def savedAfterEachAttempt : List Ev → Bool
  | [] => true
  | .attempt _ :: rest =>
    (match rest with
     | .save _ :: _ => savedAfterEachAttempt rest
     | _ => false)
  | .save _ :: rest => savedAfterEachAttempt rest

/-- A terminal run status. -/
def isTerminal (s : String) : Bool :=
  s = "complete" || s = "failed" || s = "cancelled"

/-- `getLast?` skips a cons onto a non-empty list. -/
theorem getLast?_cons_ne_nil {α : Type} (a : α) {l : List α} (h : l ≠ []) :
    (a :: l).getLast? = l.getLast? := by
  cases l with
  | nil => exact absurd rfl h
  | cons b t => rfl

/-- The step loop always ends by persisting the run it returns. -/
theorem run_steps_go_last (oracle : Nat → SkillOutcome) (now on_gate : String)
    (start_idx : Nat) (pending : List ChainStep) (i : Nat) (run : RunState) :
    (run_steps_go oracle now on_gate start_idx pending i run).2 ≠ [] ∧
    (run_steps_go oracle now on_gate start_idx pending i run).2.getLast? =
      some (.save (run_steps_go oracle now on_gate start_idx pending i run).1) := by
  induction pending generalizing i run with
  | nil => simp [run_steps_go]
  | cons step rest ih =>
    simp only [run_steps_go]
    split
    · simp
    · split
      · split
        · simp
        · obtain ⟨h1, h2⟩ := ih (i + 1) _
          exact ⟨by simp, by rw [getLast?_cons_ne_nil _ h1]; exact h2⟩
      · split
        · split
          · simp
          · obtain ⟨h1, h2⟩ := ih (i + 1) _
            refine ⟨by simp, ?_⟩
            rw [getLast?_cons_ne_nil _ (by simp), getLast?_cons_ne_nil _ h1]
            exact h2
        · split
          · split
            · simp
            · split
              · obtain ⟨h1, h2⟩ := ih (i + 1) _
                exact ⟨by simp, by rw [getLast?_cons_ne_nil _ h1]; exact h2⟩
              · obtain ⟨h1, h2⟩ := ih (i + 1) _
                refine ⟨by simp, ?_⟩
                rw [getLast?_cons_ne_nil _ (by simp), getLast?_cons_ne_nil _ h1]
                exact h2
          · obtain ⟨h1, h2⟩ := ih (i + 1) _
            refine ⟨by simp, ?_⟩
            rw [getLast?_cons_ne_nil _ (by simp), getLast?_cons_ne_nil _ h1]
            exact h2

/-- Every step attempt in the loop trace is at an index at least the loop
entry index. -/
theorem run_steps_go_attempt_ge (oracle : Nat → SkillOutcome) (now on_gate : String)
    (start_idx : Nat) (pending : List ChainStep) (i : Nat) (run : RunState)
    (j : Nat) (hj : Ev.attempt j ∈ (run_steps_go oracle now on_gate start_idx pending i run).2) :
    i ≤ j := by
  induction pending generalizing i run with
  | nil => simp [run_steps_go] at hj
  | cons step rest ih =>
    simp only [run_steps_go] at hj
    split at hj
    · simp at hj
    · split at hj
      · split at hj
        · simp at hj
          omega
        · rcases List.mem_cons.mp hj with h | h
          · cases h; omega
          · exact Nat.le_of_succ_le (ih (i + 1) _ h)
      · split at hj
        · split at hj
          · simp at hj
            omega
          · rcases List.mem_cons.mp hj with h | h
            · cases h; omega
            · rcases List.mem_cons.mp h with h2 | h2
              · cases h2
              · exact Nat.le_of_succ_le (ih (i + 1) _ h2)
        · split at hj
          · split at hj
            · simp at hj
              omega
            · split at hj
              · rcases List.mem_cons.mp hj with h | h
                · cases h; omega
                · exact Nat.le_of_succ_le (ih (i + 1) _ h)
              · rcases List.mem_cons.mp hj with h | h
                · cases h; omega
                · rcases List.mem_cons.mp h with h2 | h2
                  · cases h2
                  · exact Nat.le_of_succ_le (ih (i + 1) _ h2)
          · rcases List.mem_cons.mp hj with h | h
            · cases h; omega
            · rcases List.mem_cons.mp h with h2 | h2
              · cases h2
              · exact Nat.le_of_succ_le (ih (i + 1) _ h2)

/-- Loop-invariant facts about every snapshot passed to `save_fn` when the
loop is entered on a running run: a terminal status always comes with
`completed_at = now` set in the same transition, and a `waiting_approval`
snapshot records a waiting index strictly beyond the resume start index. -/
theorem run_steps_go_save_inv (oracle : Nat → SkillOutcome) (now on_gate : String)
    (start_idx : Nat) (pending : List ChainStep) (i : Nat) (run : RunState)
    (hrun : run.status = "running") (r' : RunState)
    (hs : Ev.save r' ∈ (run_steps_go oracle now on_gate start_idx pending i run).2) :
    (isTerminal r'.status = true → r'.completed_at = some now) ∧
    (r'.status = "waiting_approval" →
      ∃ j, r'.waiting_step = some j ∧ start_idx < j) := by
  induction pending generalizing i run with
  | nil =>
    simp only [run_steps_go, List.mem_singleton, Ev.save.injEq] at hs
    subst hs
    exact ⟨fun _ => rfl, fun h => by simp at h⟩
  | cons step rest ih =>
    simp only [run_steps_go] at hs
    split at hs
    · next hgate =>
      simp only [List.mem_singleton, Ev.save.injEq] at hs
      subst hs
      refine ⟨fun ht => by simp [isTerminal] at ht, fun _ => ?_⟩
      rcases hgate.2.2 with h | h
      · exact ⟨i, rfl, h⟩
      · exact absurd hrun h
    · split at hs
      · split at hs
        · simp only [List.mem_cons, List.mem_singleton, List.not_mem_nil, or_false] at hs
          rcases hs with h | h
          · exact absurd h (by simp)
          · obtain rfl : r' = _ := by simpa [Ev.save.injEq] using h
            exact ⟨fun _ => rfl, fun h2 => by simp at h2⟩
        · rcases List.mem_cons.mp hs with h | h
          · exact absurd h (by simp)
          · exact ih (i + 1) _ (by exact hrun) h
      · split at hs
        · split at hs
          · simp only [List.mem_cons, List.mem_singleton, List.not_mem_nil, or_false] at hs
            rcases hs with h | h
            · exact absurd h (by simp)
            · obtain rfl : r' = _ := by simpa [Ev.save.injEq] using h
              exact ⟨fun _ => rfl, fun h2 => by simp at h2⟩
          · rcases List.mem_cons.mp hs with h | h
            · exact absurd h (by simp)
            · rcases List.mem_cons.mp h with h2 | h2
              · obtain rfl : r' = _ := by simpa [Ev.save.injEq] using h2
                exact ⟨fun ht => by simp [isTerminal, hrun] at ht,
                       fun hw => by simp [hrun] at hw⟩
              · exact ih (i + 1) _ (by exact hrun) h2
        · split at hs
          · split at hs
            · simp only [List.mem_cons, List.mem_singleton, List.not_mem_nil, or_false] at hs
              rcases hs with h | h
              · exact absurd h (by simp)
              · obtain rfl : r' = _ := by simpa [Ev.save.injEq] using h
                exact ⟨fun _ => rfl, fun h2 => by simp at h2⟩
            · split at hs
              · rcases List.mem_cons.mp hs with h | h
                · exact absurd h (by simp)
                · exact ih (i + 1) _ (by exact hrun) h
              · rcases List.mem_cons.mp hs with h | h
                · exact absurd h (by simp)
                · rcases List.mem_cons.mp h with h2 | h2
                  · obtain rfl : r' = _ := by simpa [Ev.save.injEq] using h2
                    exact ⟨fun ht => by simp [isTerminal, hrun] at ht,
                           fun hw => by simp [hrun] at hw⟩
                  · exact ih (i + 1) _ (by exact hrun) h2
          · rcases List.mem_cons.mp hs with h | h
            · exact absurd h (by simp)
            · rcases List.mem_cons.mp h with h2 | h2
              · obtain rfl : r' = _ := by simpa [Ev.save.injEq] using h2
                exact ⟨fun ht => by simp [isTerminal, hrun] at ht,
                       fun hw => by simp [hrun] at hw⟩
              · exact ih (i + 1) _ (by exact hrun) h2

/-- A cons-shaped drop determines the element and the next drop. -/
theorem drop_cons_facts {α : Type} (l : List α) (i : Nat) (a : α) (t : List α)
    (h : l.drop i = a :: t) : l[i]? = some a ∧ t = l.drop (i + 1) := by
  constructor
  · have h0 := List.getElem?_drop l i 0
    simp [h] at h0
    simpa using h0.symm
  · have := List.tail_drop l i
    rw [h] at this
    simpa using this

/-- Reaching a `gate=approve` step: if every step from the loop position up
to (but excluding) index `k` is ungated and `k` carries an approval gate,
then — unless the run failed on the way — the loop run in `pause` mode
pauses exactly at `k`, having appended one step result per attempted step. -/
theorem run_steps_go_gate_pause (oracle : Nat → SkillOutcome) (now : String)
    (steps : List ChainStep) (k start_idx : Nat) (hsk : start_idx < k)
    (hklen : k < steps.length)
    (hgk : ∀ st, steps[k]? = some st → st.gate = some "approve") :
    ∀ (pending : List ChainStep) (i : Nat) (run : RunState),
    pending = steps.drop i → i ≤ k → run.status = "running" →
    (∀ j st, i ≤ j → j < k → steps[j]? = some st → st.gate ≠ some "approve") →
    (run_steps_go oracle now "pause" start_idx pending i run).1.status ≠ "failed" →
    (run_steps_go oracle now "pause" start_idx pending i run).1.status = "waiting_approval" ∧
    (run_steps_go oracle now "pause" start_idx pending i run).1.waiting_step = some k ∧
    (run_steps_go oracle now "pause" start_idx pending i run).1.step_results.length =
      run.step_results.length + (k - i) := by
  intro pending
  induction pending with
  | nil =>
    intro i run hpend hik _ _ _
    have := List.drop_eq_nil_iff.mp hpend.symm
    omega
  | cons step rest ih =>
    intro i run hpend hik hrun hbefore hnf
    obtain ⟨hstep, hrest⟩ := drop_cons_facts steps i step rest hpend.symm
    rcases Nat.lt_or_ge i k with hikx | hikx
    · -- before the gate: this step has no approval gate
      have hng : step.gate ≠ some "approve" := hbefore i step (le_refl i) hikx hstep
      revert hnf
      simp only [run_steps_go]
      split
      · next hgate => exact absurd hgate.1 hng
      · split
        · split
          · intro hnf
            exact absurd rfl hnf
          · intro hnf
            have := ih (i + 1) _ hrest (by omega) (by exact hrun)
              (fun j st hj1 hj2 hj3 => hbefore j st (by omega) hj2 hj3) hnf
            refine ⟨this.1, this.2.1, ?_⟩
            rw [this.2.2]
            simp only [List.length_append, List.length_cons, List.length_nil]
            omega
        · split
          · split
            · intro hnf
              exact absurd rfl hnf
            · intro hnf
              have := ih (i + 1) _ hrest (by omega) (by exact hrun)
                (fun j st hj1 hj2 hj3 => hbefore j st (by omega) hj2 hj3) hnf
              refine ⟨this.1, this.2.1, ?_⟩
              rw [this.2.2]
              simp only [List.length_append, List.length_cons, List.length_nil]
              omega
          · split
            · split
              · intro hnf
                exact absurd rfl hnf
              · split
                · intro hnf
                  have := ih (i + 1) _ hrest (by omega) (by exact hrun)
                    (fun j st hj1 hj2 hj3 => hbefore j st (by omega) hj2 hj3) hnf
                  refine ⟨this.1, this.2.1, ?_⟩
                  rw [this.2.2]
                  simp only [List.length_append, List.length_cons, List.length_nil]
                  omega
                · intro hnf
                  have := ih (i + 1) _ hrest (by omega) (by exact hrun)
                    (fun j st hj1 hj2 hj3 => hbefore j st (by omega) hj2 hj3) hnf
                  refine ⟨this.1, this.2.1, ?_⟩
                  rw [this.2.2]
                  simp only [List.length_append, List.length_cons, List.length_nil]
                  omega
            · intro hnf
              have := ih (i + 1) _ hrest (by omega) (by exact hrun)
                (fun j st hj1 hj2 hj3 => hbefore j st (by omega) hj2 hj3) hnf
              refine ⟨this.1, this.2.1, ?_⟩
              rw [this.2.2]
              simp only [List.length_append, List.length_cons, List.length_nil]
              omega
    · -- i = k: the gate fires
      have hik2 : i = k := by omega
      subst hik2
      have hg : step.gate = some "approve" := hgk step hstep
      simp only [run_steps_go]
      split
      · refine ⟨rfl, rfl, ?_⟩
        show run.step_results.length = run.step_results.length + (i - i)
        omega
      · next hcond => exact absurd ⟨hg, by trivial, Or.inl hsk⟩ hcond

/-- In a trace whose last event is a save, every attempt is followed by a
later save. -/
theorem attempt_followed_by_save (evs : List Ev) (r : RunState)
    (hlast : evs.getLast? = some (.save r)) (l1 l2 : List Ev) (j : Nat)
    (hsplit : evs = l1 ++ .attempt j :: l2) : ∃ r', Ev.save r' ∈ l2 := by
  cases l2 with
  | nil =>
    rw [hsplit, List.getLast?_concat] at hlast
    simp at hlast
  | cons e t =>
    rw [hsplit, List.getLast?_append_of_ne_nil _ (by simp),
        getLast?_cons_ne_nil _ (by simp)] at hlast
    exact ⟨r, List.mem_of_mem_getLast? hlast⟩

/-- When the loop's gate cannot fire (fresh entry at the start index on a
running run), the first trace event is the attempt of the entry step. -/
theorem run_steps_go_head (oracle : Nat → SkillOutcome) (now on_gate : String)
    (start_idx : Nat) (step : ChainStep) (rest : List ChainStep) (i : Nat)
    (run : RunState) (hrun : run.status = "running") (hi : ¬start_idx < i) :
    ((run_steps_go oracle now on_gate start_idx (step :: rest) i run).2).head? =
      some (.attempt i) := by
  simp only [run_steps_go]
  split
  · next hgate =>
    rcases hgate.2.2 with h | h
    · exact absurd h hi
    · exact absurd hrun h
  · split
    · split
      · rfl
      · rfl
    · split
      · split
        · rfl
        · rfl
      · split
        · split
          · rfl
          · split
            · rfl
            · rfl
        · rfl

/-- The step loop never touches the chain-parameter context of the run. -/
theorem run_steps_go_context_chain (oracle : Nat → SkillOutcome) (now on_gate : String)
    (start_idx : Nat) (pending : List ChainStep) (i : Nat) (run : RunState) :
    (run_steps_go oracle now on_gate start_idx pending i run).1.context_chain =
      run.context_chain := by
  induction pending generalizing i run with
  | nil => simp [run_steps_go]
  | cons step rest ih =>
    simp only [run_steps_go]
    split
    · rfl
    · split
      · split
        · rfl
        · exact ih (i + 1) _
      · split
        · split
          · rfl
          · exact ih (i + 1) _
        · split
          · split
            · rfl
            · split
              · exact ih (i + 1) _
              · exact ih (i + 1) _
          · exact ih (i + 1) _

/-! ### Concrete fixtures used by witnesses and counterexamples -/

/-- A chain step with an automatic gate on a fixed resolvable device. -/
def fxStepAuto : ChainStep :=
  ⟨none, "A", none, some "auto", some "stop", some "fixed", some "h1", none, none, [], []⟩

/-- A chain step with an approval gate. -/
def fxStepGate : ChainStep :=
  ⟨none, "B", none, some "approve", some "stop", some "fixed", some "h1", none, none, [], []⟩

/-- A chain step whose device cannot be resolved, skipped on failure. -/
def fxStepSkip : ChainStep :=
  ⟨none, "S", none, none, some "skip", some "fixed", some "", none, none, [], []⟩

/-- A successful skill execution result. -/
def fxOkRes : ExecutionResultM :=
  { execution_id := "e1", skill_name := "A", device_hostname := "h1",
    status := .complete, parameters := [],
    steps := [⟨"s", .complete, "cmd", "out", none, 5⟩],
    analysis := none, started_at := none, completed_at := none, error := none }

/-- The spec\x27s example chain: skill A (auto), then skill B (approve). -/
def fxAuto2 : Automation := ⟨"demo", [fxStepAuto, fxStepGate]⟩

/-- Catalog holding only `fxAuto2` under id `a1`. -/
def fxGetAuto : String → Option Automation :=
  fun s => if s = "a1" then some fxAuto2 else none

/-- A cluster pool with no clusters. -/
def fxNoPool : JValue → Option Dict := fun _ => none

/-- Every chain step's skill execution succeeds. -/
def fxOracle : Nat → SkillOutcome := fun _ => .res fxOkRes

/-- A default run record (used only to give total projections to fixtures). -/
def fxRunDefault : RunState :=
  { id := "", automation_id := "", automation_name := "", status := "",
    chain_params := [], current_step := 0, total_steps := 0, step_results := [],
    started_at := "", completed_at := none, waiting_step := none,
    context_chain := [], context_steps := [] }

/-- The run produced by executing the example chain in pause mode. -/
def fxPausedRun : RunState :=
  match execute_chain fxGetAuto fxNoPool fxOracle "a1" [] "pause" "r1" "t0" with
  | some p => p.1
  | none => fxRunDefault

/-- Its trace. -/
def fxPausedTr : List Ev :=
  match execute_chain fxGetAuto fxNoPool fxOracle "a1" [] "pause" "r1" "t0" with
  | some p => p.2
  | none => []

/-- Run store holding the paused run under id `r1`. -/
def fxGetRun : String → Option RunState :=
  fun s => if s = "r1" then some fxPausedRun else none

/-! ### C1 -/

/-- C1: for a well-formed chain whose only `gate=approve` step sits at
index `k > 0`, `executeChain` in pause gate mode — when the earlier steps
executed without a stopping failure, i.e. the run did not end `failed` —
returns a run in `waiting_approval` whose recorded waiting step index is
`k` and whose `step_results` has exactly `k` entries, one per step
attempted before the gate. -/
theorem C1_pause_at_gate (getAuto : String → Option Automation)
    (pool : JValue → Option Dict) (oracle : Nat → SkillOutcome)
    (aid : String) (params : Dict) (rid now : String) (auto : Automation)
    (k : Nat) (r : RunState) (tr : List Ev)
    (hA : getAuto aid = some auto) (hk : k < auto.steps.length) (hk0 : 0 < k)
    (hgk : (auto.steps[k]?).map ChainStep.gate = some (some "approve"))
    (hbefore : ((auto.steps.take k).all fun st =>
      decide (st.gate ≠ some "approve")) = true)
    (hout : execute_chain getAuto pool oracle aid params "pause" rid now = some (r, tr))
    (hnf : r.status ≠ "failed") :
    r.status = "waiting_approval" ∧ r.waiting_step = some k ∧
      r.step_results.length = k := by
  simp only [execute_chain, hA, run_steps, List.drop_zero, Option.some.injEq] at hout
  rw [Prod.ext_iff] at hout
  obtain ⟨hr, _⟩ := hout
  subst hr
  have hgk' : ∀ st, auto.steps[k]? = some st → st.gate = some "approve" := by
    intro st h
    rw [h] at hgk
    simpa using hgk
  have hbefore' : ∀ j st, j < k → auto.steps[j]? = some st →
      st.gate ≠ some "approve" := by
    intro j st hj hjs
    have hjt : (auto.steps.take k)[j]? = some st := by
      rw [List.getElem?_take]
      simp [hj, hjs]
    exact of_decide_eq_true (List.all_eq_true.mp hbefore st (List.getElem?_mem hjt))
  have := run_steps_go_gate_pause oracle now auto.steps k 0 hk0 hk hgk'
    auto.steps 0 _ rfl (by omega) rfl
    (fun j st _ hj hjs => hbefore' j st hj hjs) hnf
  refine ⟨this.1, this.2.1, ?_⟩
  rw [this.2.2]
  simp

/-- Witness for C1 on the example chain (`k = 1`). -/
theorem C1_pause_at_gate_witness :
    fxPausedRun.status = "waiting_approval" ∧ fxPausedRun.waiting_step = some 1 ∧
      fxPausedRun.step_results.length = 1 :=
  C1_pause_at_gate fxGetAuto fxNoPool fxOracle "a1" [] "r1" "t0" fxAuto2 1
    fxPausedRun fxPausedTr rfl (by decide) (by decide) rfl (by decide) rfl
    (by decide)

/-! ### C2 -/

/-- C2: resuming a `waiting_approval` run with `action=approve` sets the
status back to `running`, clears the waiting step index, and re-enters the
step loop at exactly the recorded index `w`; every step attempted during
the resumed run has index at least `w`, so no earlier step is re-executed. -/
theorem C2_resume_approve (getRun : String → Option RunState)
    (getAuto : String → Option Automation) (oracle : Nat → SkillOutcome)
    (rid now : String) (run : RunState) (auto : Automation) (w : Nat)
    (h1 : getRun rid = some run) (h2 : run.status = "waiting_approval")
    (h3 : run.waiting_step = some w) (h4 : getAuto run.automation_id = some auto) :
    resume_chain_run getRun getAuto oracle rid "approve" now =
      (.ok (run_steps oracle now auto
              { run with status := "running", waiting_step := none } w "pause").1,
       (run_steps oracle now auto
          { run with status := "running", waiting_step := none } w "pause").2) ∧
    ({ run with status := "running", waiting_step := none } : RunState).status =
      "running" ∧
    ({ run with status := "running", waiting_step := none } : RunState).waiting_step =
      none ∧
    (∀ j, Ev.attempt j ∈ (resume_chain_run getRun getAuto oracle rid "approve" now).2 →
      w ≤ j) := by
  have hres : resume_chain_run getRun getAuto oracle rid "approve" now =
      (.ok (run_steps oracle now auto
              { run with status := "running", waiting_step := none } w "pause").1,
       (run_steps oracle now auto
          { run with status := "running", waiting_step := none } w "pause").2) := by
    simp [resume_chain_run, h1, h2, h3, h4]
  refine ⟨hres, rfl, rfl, ?_⟩
  intro j hj
  rw [hres] at hj
  exact run_steps_go_attempt_ge oracle now "pause" w _ _ _ j hj

/-- Witness for C2: resuming the example paused run. -/
theorem C2_resume_approve_witness :
    resume_chain_run fxGetRun fxGetAuto fxOracle "r1" "approve" "t1" =
      (.ok (run_steps fxOracle "t1" fxAuto2
              { fxPausedRun with status := "running", waiting_step := none } 1 "pause").1,
       (run_steps fxOracle "t1" fxAuto2
          { fxPausedRun with status := "running", waiting_step := none } 1 "pause").2) ∧
    ({ fxPausedRun with status := "running", waiting_step := none } : RunState).status =
      "running" ∧
    ({ fxPausedRun with status := "running", waiting_step := none } : RunState).waiting_step =
      none ∧
    (∀ j, Ev.attempt j ∈ (resume_chain_run fxGetRun fxGetAuto fxOracle "r1" "approve" "t1").2 →
      1 ≤ j) :=
  C2_resume_approve fxGetRun fxGetAuto fxOracle "r1" "t1" fxPausedRun fxAuto2 1
    rfl (by decide) (by decide) rfl

/-! ### C8 -/

/-- C8: resuming a `waiting_approval` run with `action=reject` sets the
status to `cancelled` and `completedAt` to the current time, persists that
single mutation, and returns without executing any step; every other field
— in particular `step_results` — is unchanged. -/
theorem C8_resume_reject (getRun : String → Option RunState)
    (getAuto : String → Option Automation) (oracle : Nat → SkillOutcome)
    (rid now : String) (run : RunState)
    (h1 : getRun rid = some run) (h2 : run.status = "waiting_approval") :
    resume_chain_run getRun getAuto oracle rid "reject" now =
      (.ok { run with status := "cancelled", completed_at := some now },
       [.save { run with status := "cancelled", completed_at := some now }]) ∧
    ({ run with status := "cancelled", completed_at := some now } : RunState).step_results =
      run.step_results ∧
    ({ run with status := "cancelled", completed_at := some now } : RunState).waiting_step =
      run.waiting_step ∧
    ({ run with status := "cancelled", completed_at := some now } : RunState).context_steps =
      run.context_steps ∧
    (attemptIdxs (resume_chain_run getRun getAuto oracle rid "reject" now).2) = [] := by
  have hres : resume_chain_run getRun getAuto oracle rid "reject" now =
      (.ok { run with status := "cancelled", completed_at := some now },
       [.save { run with status := "cancelled", completed_at := some now }]) := by
    simp [resume_chain_run, h1, h2]
  exact ⟨hres, rfl, rfl, rfl, by rw [hres]; rfl⟩

/-- Witness for C8 on the example paused run. -/
theorem C8_resume_reject_witness :
    resume_chain_run fxGetRun fxGetAuto fxOracle "r1" "reject" "t1" =
      (.ok { fxPausedRun with status := "cancelled", completed_at := some "t1" },
       [.save { fxPausedRun with status := "cancelled", completed_at := some "t1" }]) ∧
    ({ fxPausedRun with status := "cancelled", completed_at := some "t1" } : RunState).step_results =
      fxPausedRun.step_results ∧
    ({ fxPausedRun with status := "cancelled", completed_at := some "t1" } : RunState).waiting_step =
      fxPausedRun.waiting_step ∧
    ({ fxPausedRun with status := "cancelled", completed_at := some "t1" } : RunState).context_steps =
      fxPausedRun.context_steps ∧
    (attemptIdxs (resume_chain_run fxGetRun fxGetAuto fxOracle "r1" "reject" "t1").2) = [] :=
  C8_resume_reject fxGetRun fxGetAuto fxOracle "r1" "t1" fxPausedRun rfl (by decide)

/-! ### C3 -/

/-- The chain of C3\x27s counterexample: a step whose device cannot be
resolved with `on_failure=skip`, then a normal step. -/
def fxAutoSkip : Automation := ⟨"demo-skip", [fxStepSkip, fxStepAuto]⟩

/-- Catalog holding only `fxAutoSkip` under id `a2`. -/
def fxGetAutoSkip : String → Option Automation :=
  fun s => if s = "a2" then some fxAutoSkip else none

/-- The trace of executing the skip chain. -/
def fxSkipTr : List Ev :=
  match execute_chain fxGetAutoSkip fxNoPool fxOracle "a2" [] "pause" "r2" "t0" with
  | some p => p.2
  | none => []

/-- C3 counterexample: in the skip chain both steps are attempted, but no
`save_fn` call directly follows the first attempt — the first persisted
snapshot already contains both step results, so the run state after the
skipped step (one failed result recorded) is never persisted, refuting
"the run store\x27s save is invoked after every step attempt, regardless
of outcome". -/
theorem C3_counterexample :
    attemptIdxs fxSkipTr = [0, 1] ∧
    savedAfterEachAttempt fxSkipTr = false ∧
    saveLens fxSkipTr = [2, 2] := by
  refine ⟨by decide, by decide, by decide⟩

/-- C3 (amended): the run is persisted after every step attempt, except
that an attempt resolved by a `continue` branch (unresolvable device with
`on_failure ≠ stop`, or failed execution with `on_failure = skip`) defers
its persist to a later save: in every chain trace the final event is a
save of the returned run, and every attempt is followed by at least one
later save. -/
theorem C3_save_after_attempt (getAuto : String → Option Automation)
    (pool : JValue → Option Dict) (oracle : Nat → SkillOutcome)
    (aid : String) (params : Dict) (on_gate rid now : String)
    (r : RunState) (tr : List Ev)
    (hout : execute_chain getAuto pool oracle aid params on_gate rid now =
      some (r, tr)) :
    tr ≠ [] ∧ tr.getLast? = some (.save r) ∧
    ∀ l1 j l2, tr = l1 ++ .attempt j :: l2 → ∃ r', Ev.save r' ∈ l2 := by
  rcases hA : getAuto aid with _ | auto
  · rw [execute_chain, hA] at hout
    cases hout
  · simp only [execute_chain, hA, run_steps, List.drop_zero, Option.some.injEq] at hout
    rw [Prod.ext_iff] at hout
    obtain ⟨hr, htr⟩ := hout
    dsimp only at hr htr
    subst hr
    subst htr
    obtain ⟨h1, h2⟩ := run_steps_go_last oracle now on_gate 0 auto.steps 0 _
    exact ⟨h1, h2, fun l1 j l2 hsplit => attempt_followed_by_save _ _ h2 l1 l2 j hsplit⟩

/-- Witness for C3 (amended) on the skip chain. -/
theorem C3_save_after_attempt_witness :
    fxSkipTr ≠ [] ∧
    fxSkipTr.getLast? = some (.save
      (match execute_chain fxGetAutoSkip fxNoPool fxOracle "a2" [] "pause" "r2" "t0" with
       | some p => p.1
       | none => fxRunDefault)) :=
  have h := C3_save_after_attempt fxGetAutoSkip fxNoPool fxOracle "a2" [] "pause"
    "r2" "t0"
    (match execute_chain fxGetAutoSkip fxNoPool fxOracle "a2" [] "pause" "r2" "t0" with
     | some p => p.1
     | none => fxRunDefault)
    fxSkipTr rfl
  ⟨h.1, h.2.1⟩

/-! ### C9 -/

/-- C9: whenever the orchestrator sets a run to a terminal status
(`complete`, `failed` or `cancelled`), `completedAt` is set in the same
transition — every snapshot persisted by `executeChain` or
`resume_chain_run` with a terminal status already carries
`completed_at = now` — and a run whose stored status is terminal is never
mutated again: `resume_chain_run` on it returns an error without invoking
the run store\x27s save. -/
theorem C9_terminal_completed_frozen :
    (∀ (getAuto : String → Option Automation) (pool : JValue → Option Dict)
       (oracle : Nat → SkillOutcome) (aid : String) (params : Dict)
       (on_gate rid now : String) (r : RunState) (tr : List Ev),
       execute_chain getAuto pool oracle aid params on_gate rid now = some (r, tr) →
       ∀ r', Ev.save r' ∈ tr → isTerminal r'.status = true →
         r'.completed_at = some now) ∧
    (∀ (getRun : String → Option RunState) (getAuto : String → Option Automation)
       (oracle : Nat → SkillOutcome) (rid action now : String),
       ∀ r', Ev.save r' ∈ (resume_chain_run getRun getAuto oracle rid action now).2 →
         isTerminal r'.status = true → r'.completed_at = some now) ∧
    (∀ (getRun : String → Option RunState) (getAuto : String → Option Automation)
       (oracle : Nat → SkillOutcome) (rid action now : String) (run : RunState),
       getRun rid = some run → isTerminal run.status = true →
       resume_chain_run getRun getAuto oracle rid action now =
         (.err ("Run not waiting approval (status: " ++ run.status ++ ")"), [])) := by
  refine ⟨?_, ?_, ?_⟩
  · intro getAuto pool oracle aid params on_gate rid now r tr hout r' hs ht
    rcases hA : getAuto aid with _ | auto
    · rw [execute_chain, hA] at hout
      cases hout
    · simp only [execute_chain, hA, run_steps, List.drop_zero, Option.some.injEq] at hout
      rw [Prod.ext_iff] at hout
      have htr : (run_steps_go oracle now on_gate 0 auto.steps 0 _).2 = tr := hout.2
      rw [← htr] at hs
      exact (run_steps_go_save_inv oracle now on_gate 0 auto.steps 0 _ rfl r' hs).1 ht
  · intro getRun getAuto oracle rid action now r' hs ht
    rcases hR : getRun rid with _ | run
    · simp only [resume_chain_run, hR] at hs
      simp at hs
    · simp only [resume_chain_run, hR] at hs
      split at hs
      · simp at hs
      · split at hs
        · simp only [List.mem_singleton, Ev.save.injEq] at hs
          rw [hs]
        · rcases hA : getAuto run.automation_id with _ | auto
          · simp only [hA] at hs
            simp at hs
          · simp only [hA, run_steps] at hs
            exact (run_steps_go_save_inv oracle now "pause" (run.waiting_step.getD 0)
              _ _ _ rfl r' hs).1 ht
  · intro getRun getAuto oracle rid action now run hR ht
    rw [resume_chain_run, hR]
    have hne : run.status ≠ "waiting_approval" := by
      intro hw
      rw [hw] at ht
      simp [isTerminal] at ht
    simp [hne]

/-- A terminal (cancelled) run stored under id `r9`. -/
def fxDoneRun : RunState :=
  { fxRunDefault with id := "r9", status := "cancelled", completed_at := some "t1" }

/-- Run store for the C9 witness. -/
def fxGetDone : String → Option RunState :=
  fun s => if s = "r9" then some fxDoneRun else none

/-- Witness for C9: resuming a cancelled run errors without any save. -/
theorem C9_terminal_completed_frozen_witness :
    resume_chain_run fxGetDone fxGetAuto fxOracle "r9" "approve" "t2" =
      (.err ("Run not waiting approval (status: " ++ fxDoneRun.status ++ ")"), []) :=
  C9_terminal_completed_frozen.2.2 fxGetDone fxGetAuto fxOracle "r9" "approve" "t2"
    fxDoneRun rfl (by decide)

/-! ### C10 -/

/-- C10: in a fresh `executeChain` run in pause mode, an `approve` gate on
the very first chain step (index 0) does not pause the run: the gate only
fires for indices strictly beyond the loop start, so the first trace event
is the attempt of step 0, and no persisted snapshot (nor the returned run)
is ever `waiting_approval` with waiting step index 0. -/
theorem C10_first_step_gate_runs (getAuto : String → Option Automation)
    (pool : JValue → Option Dict) (oracle : Nat → SkillOutcome)
    (aid : String) (params : Dict) (rid now : String) (auto : Automation)
    (st : ChainStep) (rest : List ChainStep) (r : RunState) (tr : List Ev)
    (hA : getAuto aid = some auto) (hsteps : auto.steps = st :: rest)
    (_hg : st.gate = some "approve")
    (hout : execute_chain getAuto pool oracle aid params "pause" rid now =
      some (r, tr)) :
    tr.head? = some (.attempt 0) ∧
    (∀ r', Ev.save r' ∈ tr → r'.status = "waiting_approval" →
      ∃ j, r'.waiting_step = some j ∧ 0 < j) ∧
    (r.status = "waiting_approval" → ∃ j, r.waiting_step = some j ∧ 0 < j) := by
  simp only [execute_chain, hA, run_steps, List.drop_zero, Option.some.injEq] at hout
  rw [Prod.ext_iff] at hout
  obtain ⟨hr, htr⟩ := hout
  dsimp only at hr htr
  have hsave : ∀ r', Ev.save r' ∈ tr → r'.status = "waiting_approval" →
      ∃ j, r'.waiting_step = some j ∧ 0 < j := by
    intro r' hs hw
    rw [← htr] at hs
    exact (run_steps_go_save_inv oracle now "pause" 0 auto.steps 0 _ rfl r' hs).2 hw
  refine ⟨?_, hsave, ?_⟩
  · rw [← htr, hsteps]
    exact run_steps_go_head oracle now "pause" 0 st rest 0 _ rfl (by omega)
  · intro hw
    obtain ⟨_, hlast⟩ := run_steps_go_last oracle now "pause" 0 auto.steps 0 _
    rw [htr, hr] at hlast
    exact hsave r (List.mem_of_mem_getLast? hlast) hw

/-- The chain with the approval gate on step 0, under id `a3`. -/
def fxAutoGate0 : Automation := ⟨"demo-gate0", [fxStepGate, fxStepAuto]⟩

/-- Catalog for the C10 witness. -/
def fxGetAutoGate0 : String → Option Automation :=
  fun s => if s = "a3" then some fxAutoGate0 else none

/-- The trace of executing the gate-at-0 chain in pause mode. -/
def fxGate0Tr : List Ev :=
  match execute_chain fxGetAutoGate0 fxNoPool fxOracle "a3" [] "pause" "r3" "t0" with
  | some p => p.2
  | none => []

/-- Witness for C10: step 0 runs immediately despite its approve gate. -/
theorem C10_first_step_gate_runs_witness :
    fxGate0Tr.head? = some (.attempt 0) :=
  (C10_first_step_gate_runs fxGetAutoGate0 fxNoPool fxOracle "a3" [] "r3" "t0"
    fxAutoGate0 fxStepGate [fxStepAuto]
    (match execute_chain fxGetAutoGate0 fxNoPool fxOracle "a3" [] "pause" "r3" "t0" with
     | some p => p.1
     | none => fxRunDefault)
    fxGate0Tr rfl rfl rfl rfl).1

/-! ### C7 -/

/-- A zero-step automation (the chain context is fixed at creation, so the
loop does not matter for context claims). -/
def fxAutoEmpty : Automation := ⟨"empty", []⟩

/-- Catalog holding `fxAutoEmpty` under id `a0`. -/
def fxGetAutoEmpty : String → Option Automation :=
  fun s => if s = "a0" then some fxAutoEmpty else none

/-- A cluster pool that returns a map even for the empty cluster id
(e.g. a cluster file named exactly `.json`). -/
def fxPoolEmptyId : JValue → Option Dict :=
  fun v => match v with
  | .str s => if s = "" then some [("a", .str "1")] else none
  | _ => none

/-- A cluster pool holding cluster `c1`. -/
def fxPoolC1 : JValue → Option Dict :=
  fun v => match v with
  | .str s => if s = "c1" then some [("x", .str "d"), ("y", .str "dy")] else none
  | _ => none

/-- C7 counterexample: the chain parameters contain a `cluster_id` key
(with the empty-string value), the pool collaborator returns a parameter
map for that value, yet `execute_chain` never consults the pool — the
value is falsy, so `if cluster_id:` skips the merge — and the pool-only
key `a` is absent from the chain context, refuting "keys present only in
the cluster map are added as defaults". -/
theorem C7_counterexample :
    dget [("cluster_id", JValue.str "")] "cluster_id" = some (.str "") ∧
    fxPoolEmptyId (.str "") = some [("a", .str "1")] ∧
    dget [("a", JValue.str "1")] "a" = some (.str "1") ∧
    (execute_chain fxGetAutoEmpty fxPoolEmptyId fxOracle "a0"
        [("cluster_id", .str "")] "pause" "r7" "t0").map
      (fun p => dget p.1.context_chain "a") = some none := by
  exact ⟨rfl, rfl, rfl, rfl⟩

/-- C7 (amended): when the chain parameters carry a truthy `cluster_id`
for which the pool returns a map, the initial chain context is the pool
map merged as defaults — the caller\x27s value wins on every key present
in both, pool-only keys are added; when `cluster_id` is absent, falsy, or
the pool returns nothing, the context is the caller\x27s parameters
unchanged. -/
theorem C7_cluster_defaults (getAuto : String → Option Automation)
    (pool : JValue → Option Dict) (oracle : Nat → SkillOutcome)
    (aid : String) (params : Dict) (on_gate rid now : String)
    (auto : Automation) (r : RunState) (tr : List Ev)
    (hA : getAuto aid = some auto)
    (hout : execute_chain getAuto pool oracle aid params on_gate rid now =
      some (r, tr)) :
    (∀ v m, dget params "cluster_id" = some v → truthy v = true →
      pool v = some m → (params.map Prod.fst).Nodup →
      ∀ key, dget r.context_chain key = (dget params key).or (dget m key)) ∧
    (dget params "cluster_id" = none → r.context_chain = params) ∧
    (∀ v, dget params "cluster_id" = some v → truthy v = false →
      r.context_chain = params) ∧
    (∀ v, dget params "cluster_id" = some v → pool v = none →
      r.context_chain = params) := by
  simp only [execute_chain, hA, run_steps, List.drop_zero, Option.some.injEq] at hout
  rw [Prod.ext_iff] at hout
  obtain ⟨hr, _⟩ := hout
  dsimp only at hr
  subst hr
  refine ⟨?_, ?_, ?_, ?_⟩
  · intro v m hv htv hp hnd key
    rw [run_steps_go_context_chain]
    dsimp only
    rw [hv]
    simp only [htv, if_true, hp]
    by_cases hm : m.isEmpty
    · have : m = [] := by
        cases m
        · rfl
        · simp [List.isEmpty] at hm
      subst this
      simp [dget]
    · simp only [hm, if_false]
      exact dget_dmergePy m params key hnd
  · intro hv
    rw [run_steps_go_context_chain]
    dsimp only
    rw [hv]
  · intro v hv htv
    rw [run_steps_go_context_chain]
    dsimp only
    rw [hv]
    simp [htv]
  · intro v hv hp
    rw [run_steps_go_context_chain]
    dsimp only
    rw [hv]
    simp only [hp]
    by_cases htv : truthy v <;> simp [htv]

/-- Witness for C7 (amended): caller-supplied `x` wins over the pool
default, pool-only `y` is added. -/
theorem C7_cluster_defaults_witness :
    dget (match execute_chain fxGetAutoEmpty fxPoolC1 fxOracle "a0"
        [("cluster_id", .str "c1"), ("x", .str "ov")] "pause" "r7" "t0" with
      | some p => p.1.context_chain
      | none => []) "x" =
      (dget [("cluster_id", JValue.str "c1"), ("x", JValue.str "ov")] "x").or
        (dget [("x", JValue.str "d"), ("y", JValue.str "dy")] "x") ∧
    dget (match execute_chain fxGetAutoEmpty fxPoolC1 fxOracle "a0"
        [("cluster_id", .str "c1"), ("x", .str "ov")] "pause" "r7" "t0" with
      | some p => p.1.context_chain
      | none => []) "y" =
      (dget [("cluster_id", JValue.str "c1"), ("x", JValue.str "ov")] "y").or
        (dget [("x", JValue.str "d"), ("y", JValue.str "dy")] "y") := by
  have h := C7_cluster_defaults fxGetAutoEmpty fxPoolC1 fxOracle "a0"
    [("cluster_id", .str "c1"), ("x", .str "ov")] "pause" "r7" "t0" fxAutoEmpty
    (match execute_chain fxGetAutoEmpty fxPoolC1 fxOracle "a0"
        [("cluster_id", .str "c1"), ("x", .str "ov")] "pause" "r7" "t0" with
      | some p => p.1
      | none => fxRunDefault)
    (match execute_chain fxGetAutoEmpty fxPoolC1 fxOracle "a0"
        [("cluster_id", .str "c1"), ("x", .str "ov")] "pause" "r7" "t0" with
      | some p => p.2
      | none => [])
    rfl rfl
  exact ⟨h.1 (.str "c1") [("x", .str "d"), ("y", .str "dy")] rfl rfl rfl
      (by decide) "x",
    h.1 (.str "c1") [("x", .str "d"), ("y", .str "dy")] rfl rfl rfl
      (by decide) "y"⟩

/-- The walk at the end of the path returns the current value. -/
theorem walkParts_nil (v : JValue) : walkParts v [] = some v := by
  cases v <;> rfl

/-! ### C5 -/

/-- C5 counterexample: the step output `\x7b"y":1\x7d` is a string in
which no parseable JSON object containing the needed key `x` can be found
(the whole string parses to an object lacking `x`, and its only
single-level brace group is that same object), yet the placeholder
resolves to the empty string, not to its own literal text: the resolver
descends into the parsed object with the empty-string default. -/
theorem C5_counterexample :
    jsonParse "\x7b\x22y\x22:1\x7d" = some (.obj [("y", .num 1)]) ∧
    dget [("y", JValue.num 1)] "x" = none ∧
    findKeyInBraces "\x7b\x22y\x22:1\x7d" "x" = none ∧
    resolve_template "\x7b\x7bsteps.s1.output.x\x7d\x7d"
      (.obj [("chain", .obj []),
             ("steps", .obj [("s1", .obj [("output", .str "\x7b\x22y\x22:1\x7d")])])]) =
      "" ∧
    ("" : String) ≠ "\x7b\x7bsteps.s1.output.x\x7d\x7d" := by
  refine ⟨rfl, rfl, rfl, rfl, by decide⟩

/-- C5 (amended): when the walk reaches a string hop that does not itself
parse as a JSON object and in which no single-level brace group parses to
an object containing the needed key, the walk aborts and the placeholder
is replaced by its own original literal text — in particular,
`\x7b\x7bsteps.step-9.output.x\x7d\x7d` with no `step-9` entry resolves to
itself.  (When the whole string parses as a JSON object lacking the key,
the walk instead continues with the empty string, yielding `""` at a final
segment — the carve-out forced by the counterexample.) -/
theorem C5_unresolved_kept_literal :
    (∀ (s part : String) (rest : List String),
      (∀ fs, jsonParse s ≠ some (.obj fs)) →
      findKeyInBraces s part = none →
      walkParts (.str s) (part :: rest) = none) ∧
    (∀ (context : JValue) (path orig : String),
      walkParts context (splitPath path) = none →
      replaceGroup context path orig = orig) ∧
    (∀ (chain : JValue) (stepsD : Dict),
      dget stepsD "step-9" = none →
      resolve_template "\x7b\x7bsteps.step-9.output.x\x7d\x7d"
        (.obj [("chain", chain), ("steps", .obj stepsD)]) =
        "\x7b\x7bsteps.step-9.output.x\x7d\x7d") := by
  refine ⟨?_, ?_, ?_⟩
  · intro s part rest h1 h2
    rw [walkParts]
    rcases hp : jsonParse s with _ | v
    · rw [h2]
    · cases v with
      | obj fs => exact absurd hp (h1 fs)
      | str s2 => rfl
      | num n => rfl
      | bool b => rfl
      | null => rfl
      | arr xs => rfl
  · intro context path orig h
    rw [replaceGroup, h]
  · intro chain stepsD h
    have e1 : resolve_template "\x7b\x7bsteps.step-9.output.x\x7d\x7d"
        (.obj [("chain", chain), ("steps", .obj stepsD)]) =
        String.mk ((replaceGroup (.obj [("chain", chain), ("steps", .obj stepsD)])
          "steps.step-9.output.x" "\x7b\x7bsteps.step-9.output.x\x7d\x7d").data ++ []) :=
      rfl
    have e2 : walkParts (.obj [("chain", chain), ("steps", .obj stepsD)])
        (splitPath "steps.step-9.output.x") =
        walkParts ((dget stepsD "step-9").getD (.str "")) ["output", "x"] := rfl
    rw [e1, replaceGroup, e2, h]
    rfl

/-- Witness for C5 (amended), at a concrete non-object string hop and a
concrete missing `step-9` context. -/
theorem C5_unresolved_kept_literal_witness :
    walkParts (.str "plain text") ["x"] = none ∧
    replaceGroup (.obj []) "a.b" "orig" = "orig" ∧
    resolve_template "\x7b\x7bsteps.step-9.output.x\x7d\x7d"
      (.obj [("chain", .obj []), ("steps", .obj [("s1", .str "v")])]) =
      "\x7b\x7bsteps.step-9.output.x\x7d\x7d" :=
  ⟨C5_unresolved_kept_literal.1 "plain text" "x" [] (fun fs h => by cases h) rfl,
   C5_unresolved_kept_literal.2.1 (.obj []) "a.b" "orig" rfl,
   C5_unresolved_kept_literal.2.2 (.obj []) [("s1", .str "v")] rfl⟩

/-! ### C6 -/

/-- A one-step chain whose step carries the explicit id `step-1`. -/
def fxStepJ : ChainStep :=
  ⟨some "step-1", "J", none, none, none, some "fixed", some "h1", none, none, [], []⟩

/-- Automation holding only `fxStepJ`. -/
def fxAutoJ : Automation := ⟨"demo-json", [fxStepJ]⟩

/-- A skill result whose combined output is the spec\x27s example JSON
object. -/
def fxJsonRes : ExecutionResultM :=
  { execution_id := "e2", skill_name := "J", device_hostname := "h1",
    status := .complete, parameters := [],
    steps := [⟨"s", .complete, "c",
      "\x7b\x22mgmt_ip\x22: \x2210.0.0.5\x22, \x22vmid\x22: 110\x7d", none, 5⟩],
    analysis := none, started_at := none, completed_at := none, error := none }

/-- A skill result whose combined output is a JSON object with a falsy
value. -/
def fxZeroRes : ExecutionResultM :=
  { execution_id := "e3", skill_name := "J", device_hostname := "h1",
    status := .complete, parameters := [],
    steps := [⟨"s", .complete, "c", "\x7b\x22x\x22: 0\x7d", none, 5⟩],
    analysis := none, started_at := none, completed_at := none, error := none }

/-- The run after executing the one-step chain with the JSON output. -/
def fxJsonRun : RunState :=
  match execute_chain (fun _ => some fxAutoJ) fxNoPool (fun _ => .res fxJsonRes)
      "aj" [] "pause" "r4" "t0" with
  | some p => p.1
  | none => fxRunDefault

/-- The run after executing it with the falsy-value JSON output. -/
def fxZeroRun : RunState :=
  match execute_chain (fun _ => some fxAutoJ) fxNoPool (fun _ => .res fxZeroRes)
      "aj" [] "pause" "r5" "t0" with
  | some p => p.1
  | none => fxRunDefault

/-- C6 counterexample: the output `\x7b"x": 0\x7d` parses as a JSON object
and is stored in the run context, but the later template
`\x7b\x7bsteps.step-1.output.x\x7d\x7d` resolves to the empty string, not
to the stringified value `"0"`: the resolver\x27s final step is
`str(obj) if obj else ""`, so a falsy value is replaced by `""`. -/
theorem C6_counterexample :
    jsonParse "\x7b\x22x\x22: 0\x7d" = some (.obj [("x", .num 0)]) ∧
    pyStr (.num 0) = "0" ∧
    resolve_template "\x7b\x7bsteps.step-1.output.x\x7d\x7d" (ctxVal fxZeroRun) = "" ∧
    ("" : String) ≠ "0" := by
  refine ⟨rfl, rfl, rfl, by decide⟩

/-- C6 (amended): a chain step\x27s JSON-object output is stored in the
run context as a parsed object, and a later step\x27s template
`\x7b\x7bsteps.step-1.output.key\x7d\x7d` resolves to the stringified
value when the value is truthy, to the empty string when it is falsy —
on the spec\x27s example, `mgmt_ip` resolves to `10.0.0.5` and `vmid` to
`110`; and within one skill execution, a successful step whose JSON-object
output contains `vmid` sets the running parameter `new_vmid` to that value
whenever `new_vmid` is not already set after the merge. -/
theorem C6_output_roundtrip :
    (resolve_template "\x7b\x7bsteps.step-1.output.mgmt_ip\x7d\x7d" (ctxVal fxJsonRun) =
       "10.0.0.5" ∧
     resolve_template "\x7b\x7bsteps.step-1.output.vmid\x7d\x7d" (ctxVal fxJsonRun) =
       "110" ∧
     dget fxJsonRun.context_steps "step-1" = some (.obj
       [("output", .obj [("mgmt_ip", .str "10.0.0.5"), ("vmid", .num 110)]),
        ("status", .str "complete"), ("execution_id", .str "e2"),
        ("device", .str "h1"), ("analysis", .null)])) ∧
    (∀ (chain : JValue) (stepsD e d : Dict) (v : JValue),
      dget stepsD "step-1" = some (.obj e) →
      dget e "output" = some (.obj d) →
      dget d "mgmt_ip" = some v →
      resolve_template "\x7b\x7bsteps.step-1.output.mgmt_ip\x7d\x7d"
        (.obj [("chain", chain), ("steps", .obj stepsD)]) =
        (if truthy v then pyStr v else "")) ∧
    (∀ (params : Dict) (out : String) (fs : Dict) (v : JValue),
      jsonParse out = some (.obj fs) →
      dget fs "vmid" = some v →
      (dget (dmergePy params fs) "new_vmid").isNone = true →
      dget (forwardParams params out) "new_vmid" = some v) := by
  refine ⟨⟨rfl, rfl, rfl⟩, ?_, ?_⟩
  · intro chain stepsD e d v h1 h2 h3
    have e1 : resolve_template "\x7b\x7bsteps.step-1.output.mgmt_ip\x7d\x7d"
        (.obj [("chain", chain), ("steps", .obj stepsD)]) =
        String.mk ((replaceGroup (.obj [("chain", chain), ("steps", .obj stepsD)])
          "steps.step-1.output.mgmt_ip"
          "\x7b\x7bsteps.step-1.output.mgmt_ip\x7d\x7d").data ++ []) := rfl
    have e2 : walkParts (.obj [("chain", chain), ("steps", .obj stepsD)])
        (splitPath "steps.step-1.output.mgmt_ip") =
        walkParts ((dget stepsD "step-1").getD (.str "")) ["output", "mgmt_ip"] := rfl
    rw [e1, replaceGroup, e2, h1]
    have e3 : walkParts ((some (JValue.obj e)).getD (.str "")) ["output", "mgmt_ip"] =
        walkParts ((dget e "output").getD (.str "")) ["mgmt_ip"] := rfl
    rw [e3, h2]
    have e4 : walkParts ((some (JValue.obj d)).getD (.str "")) ["mgmt_ip"] =
        walkParts ((dget d "mgmt_ip").getD (.str "")) [] := rfl
    rw [e4, walkParts_nil, h3]
    cases hv : truthy v
    · simp [hv]
    · simp only [Option.getD_some, hv, if_true]
      cases (pyStr v) with
      | mk data => simp
  · intro params out fs v h1 h2 h3
    rw [forwardParams, h1]
    dsimp only
    rw [h2]
    simp [h3, dget_dset]

/-- Witness for C6 (amended): the general member conjuncts at concrete
inputs. -/
theorem C6_output_roundtrip_witness :
    resolve_template "\x7b\x7bsteps.step-1.output.mgmt_ip\x7d\x7d"
      (.obj [("chain", .obj []),
             ("steps", .obj [("step-1", .obj [("output",
               .obj [("mgmt_ip", .str "10.0.0.5")])])])]) =
      (if truthy (.str "10.0.0.5") then pyStr (.str "10.0.0.5") else "") ∧
    dget (forwardParams [] "\x7b\x22vmid\x22: 110\x7d") "new_vmid" = some (.num 110) :=
  ⟨C6_output_roundtrip.2.1 (.obj []) [("step-1", .obj [("output",
       .obj [("mgmt_ip", .str "10.0.0.5")])])]
     [("output", .obj [("mgmt_ip", .str "10.0.0.5")])]
     [("mgmt_ip", .str "10.0.0.5")] (.str "10.0.0.5") rfl rfl rfl,
   C6_output_roundtrip.2.2 [] "\x7b\x22vmid\x22: 110\x7d" [("vmid", .num 110)]
     (.num 110) rfl rfl rfl⟩

end Engine

/-! ## C4: streaming vs non-streaming skill execution -/

namespace Executor

/-- How a streaming `all_step_results` entry corresponds to a
non-streaming `StepResult`: same name, status and error; the recorded
output is the same except that the non-streaming path appends the
continue-on-fail marker to a failed-but-continued step. -/
def streamOutputRel (e : SStep) (n : StepRes) : Prop :=
  n.step_name = e.step_name ∧ n.status = e.status ∧ n.error = e.error ∧
  (n.output = e.output ∨ n.output = e.output ++ failMarker e.error)

/-- The two step loops walk in lock step: same failure flag, same final
running parameters, same `all_output`, and step records related by
`streamOutputRel`. -/
theorem nsLoop_sLoop (oracle : Nat → TOutcome) (dur : Nat → Nat) (total : Nat) :
    ∀ (steps : List SkStep) (i : Nat) (params : Dict)
      (acc : List StepRes) (accOut : List String) (accErr : Option String),
    (nsLoop oracle dur steps i ⟨acc, accOut, params, accErr, false⟩).failed =
      (sLoop oracle dur total steps i params).failed ∧
    (nsLoop oracle dur steps i ⟨acc, accOut, params, accErr, false⟩).runningParams =
      (sLoop oracle dur total steps i params).params ∧
    (nsLoop oracle dur steps i ⟨acc, accOut, params, accErr, false⟩).allOutput =
      accOut ++ (sLoop oracle dur total steps i params).aos ∧
    ∃ fresh,
      (nsLoop oracle dur steps i ⟨acc, accOut, params, accErr, false⟩).steps =
        acc ++ fresh ∧
      List.Forall₂ streamOutputRel (sLoop oracle dur total steps i params).entries
        fresh := by
  intro steps
  induction steps with
  | nil =>
    intro i params acc accOut accErr
    refine ⟨rfl, rfl, by simp [nsLoop, sLoop], [], by simp [nsLoop], ?_⟩
    simp [sLoop]
  | cons sd rest ih =>
    intro i params acc accOut accErr
    cases ho : oracle i with
    | exn msg =>
      simp only [nsLoop, sLoop, ho]
      refine ⟨by trivial, by trivial, by simp, [⟨sd.name.getD "unknown", .failed,
        resolve_template (sd.command_template.getD "") params
          (sd.transport.getD "ssh"), "", some msg, 0⟩], by simp, ?_⟩
      exact List.Forall₂.cons ⟨rfl, rfl, rfl, Or.inl rfl⟩ List.Forall₂.nil
    | res tr =>
      cases hsucc : tr.success.getD false with
      | true =>
        simp only [nsLoop, sLoop, ho, hsucc]
        simp only [Bool.true_and, Bool.not_true, Bool.false_and, if_true, if_false,
          ite_true, ite_false, Bool.false_eq_true]
        obtain ⟨ihf, ihp, iho, fresh', ihs, ihrel⟩ := ih (i + 1)
          (if !(tr.output.getD "").isEmpty then
            forwardParams params (tr.output.getD "") else params)
          (acc ++ [⟨sd.name.getD "unknown", .complete,
            resolve_template (sd.command_template.getD "") params
              (sd.transport.getD "ssh"), tr.output.getD "", tr.error, dur i⟩])
          (accOut ++ ["=== " ++ sd.name.getD "unknown" ++ " ===\n" ++ tr.output.getD ""])
          accErr
        refine ⟨ihf, ihp, ?_, ?_⟩
        · rw [iho]
          simp
        · refine ⟨⟨sd.name.getD "unknown", .complete,
            resolve_template (sd.command_template.getD "") params
              (sd.transport.getD "ssh"), tr.output.getD "", tr.error, dur i⟩ :: fresh',
            ?_, ?_⟩
          · rw [ihs]
            simp
          · exact List.Forall₂.cons ⟨rfl, rfl, rfl, Or.inl rfl⟩ ihrel
      | false =>
        cases hc : sd.continue_on_fail.getD false with
        | true =>
          simp only [nsLoop, sLoop, ho, hsucc, hc]
          simp only [Bool.false_and, Bool.not_false, Bool.and_true, Bool.not_true,
            Bool.and_false, if_false, if_true, ite_true, ite_false,
            Bool.false_eq_true]
          obtain ⟨ihf, ihp, iho, fresh', ihs, ihrel⟩ := ih (i + 1) params
            (acc ++ [⟨sd.name.getD "unknown", .failed,
              resolve_template (sd.command_template.getD "") params
                (sd.transport.getD "ssh"),
              tr.output.getD "" ++ failMarker tr.error, tr.error, dur i⟩])
            (accOut ++ ["=== " ++ sd.name.getD "unknown" ++ " ===\n" ++ tr.output.getD ""])
            accErr
          refine ⟨ihf, ihp, ?_, ?_⟩
          · rw [iho]
            simp
          · refine ⟨⟨sd.name.getD "unknown", .failed,
              resolve_template (sd.command_template.getD "") params
                (sd.transport.getD "ssh"),
              tr.output.getD "" ++ failMarker tr.error, tr.error, dur i⟩ :: fresh',
              ?_, ?_⟩
            · rw [ihs]
              simp
            · exact List.Forall₂.cons ⟨rfl, rfl, rfl, Or.inr rfl⟩ ihrel
        | false =>
          simp only [nsLoop, sLoop, ho, hsucc, hc]
          simp only [Bool.false_and, Bool.not_false, Bool.and_true, if_false,
            if_true, ite_true, ite_false, Bool.false_eq_true]
          refine ⟨by trivial, by trivial, by simp, [⟨sd.name.getD "unknown", .failed,
            resolve_template (sd.command_template.getD "") params
              (sd.transport.getD "ssh"), tr.output.getD "", tr.error, dur i⟩],
            by simp, ?_⟩
          exact List.Forall₂.cons ⟨rfl, rfl, rfl, Or.inl rfl⟩ List.Forall₂.nil

/-- Index of a `step_start` event. -/
def stepStartIdx? : SEvent → Option Nat
  | .stepStart i _ _ _ => some i
  | _ => none

/-- Index of a `step_complete` event. -/
def stepCompleteIdx? : SEvent → Option Nat
  | .stepComplete i _ _ _ _ _ _ => some i
  | _ => none

/-- The streaming loop yields its step events in step order: the
`step_start` (resp. `step_complete`) indices are exactly
`i, i+1, ...`, one pair per recorded step. -/
theorem sLoop_evs_idx (oracle : Nat → TOutcome) (dur : Nat → Nat) (total : Nat) :
    ∀ (steps : List SkStep) (i : Nat) (params : Dict),
    (sLoop oracle dur total steps i params).evs.filterMap stepStartIdx? =
      List.range' i (sLoop oracle dur total steps i params).entries.length ∧
    (sLoop oracle dur total steps i params).evs.filterMap stepCompleteIdx? =
      List.range' i (sLoop oracle dur total steps i params).entries.length := by
  intro steps
  induction steps with
  | nil => intro i params; exact ⟨rfl, rfl⟩
  | cons sd rest ih =>
    intro i params
    cases ho : oracle i with
    | exn msg =>
      simp only [sLoop, ho]
      exact ⟨rfl, rfl⟩
    | res tr =>
      simp only [sLoop, ho]
      split
      · exact ⟨rfl, rfl⟩
      · obtain ⟨ih1, ih2⟩ := ih (i + 1)
          (if tr.success.getD false && !(tr.output.getD "").isEmpty then
            forwardParams params (tr.output.getD "") else params)
        constructor
        · simp only [List.filterMap_append, List.filterMap_cons, stepStartIdx?,
            List.length_cons]
          rw [ih1]
          rfl
        · simp only [List.filterMap_append, List.filterMap_cons, stepCompleteIdx?,
            List.length_cons]
          rw [ih2]
          rfl

/-- Field projections transported along the step relation. -/
theorem forall2_rel_maps : ∀ (entries : List SStep) (fresh : List StepRes),
    List.Forall₂ streamOutputRel entries fresh →
    fresh.map StepRes.status = entries.map SStep.status ∧
    fresh.map StepRes.error = entries.map SStep.error ∧
    fresh.map StepRes.step_name = entries.map SStep.step_name := by
  intro entries fresh h
  induction h with
  | nil => exact ⟨rfl, rfl, rfl⟩
  | cons hr _ ihm =>
    obtain ⟨h1, h2, h3, _⟩ := hr
    exact ⟨by simp [h2, ihm.1], by simp [h3, ihm.2.1], by simp [h1, ihm.2.2]⟩

/-- A 1-step skill with `continue_on_fail` for the C4 counterexample. -/
def fxSkStepCont : SkStep :=
  ⟨some "s1", some "ssh", some "", some 30, none, some true, none⟩

/-- Its skill. -/
def fxSkillCont : Skill := ⟨[fxSkStepCont], none⟩

/-- A failing transport outcome with output and error. -/
def fxFailTr : Nat → TOutcome := fun _ => .res ⟨some "out", some "boom", some false⟩

/-- A request. -/
def fxReqC : ExecRequest := ⟨"sk", "h1", []⟩

/-- Non-streaming execution of the continue-on-fail skill. -/
def fxNsCont : ExecutionResultM :=
  execute_skill (some fxSkillCont) (some ()) fxFailTr (fun _ => 7) (fun _ => none)
    fxReqC "e4" "t0" "t1"

/-- Streaming execution of the same skill on the same outcomes. -/
def fxStreamCont : List SEvent × Option ExecutionResultM :=
  execute_skill_streaming (some fxSkillCont) (some ()) fxFailTr (fun _ => 7)
    (fun _ => none) fxReqC "e5" "t0" "t1"

/-- C4 counterexample: on a step that fails with `continue_on_fail` set,
the non-streaming path records the output with the appended
`[Step failed but allowed to continue: ...]` marker, while the streaming
path persists and emits the bare output — the per-step outputs of the two
results differ, refuting the claimed field-for-field equality. -/
theorem C4_counterexample :
    fxNsCont.steps.map StepRes.output =
      ["out\n[Step failed but allowed to continue: boom]"] ∧
    (match fxStreamCont.2 with
     | some S => S.steps.map StepRes.output
     | none => []) = ["out"] ∧
    fxNsCont.status = .complete ∧
    (match fxStreamCont.2 with
     | some S => S.status
     | none => .failed) = .complete ∧
    (["out\n[Step failed but allowed to continue: boom]"] : List String) ≠
      ["out"] := by
  refine ⟨rfl, rfl, rfl, rfl, by decide⟩

/-- C4 (amended): for every found skill and credential pair, on the same
per-step transport outcomes the streaming execution yields its events in
step order — `execution_start` first, matched `step_start`/`step_complete`
indices `0, 1, ...`, and a final `execution_complete` carrying exactly the
result it persists — and that result agrees with the non-streaming
`execute_skill` on the overall status, the per-step statuses, names and
errors, and the analysis; the per-step outputs agree except that a failed
step with `continue_on_fail` set carries the appended failure marker only
in the non-streaming result. -/
theorem C4_streaming_matches (sk : Skill) (oracle : Nat → TOutcome)
    (dur : Nat → Nat) (analyze : String → Option String) (req : ExecRequest)
    (eidN saN caN eidS saS caS : String) :
    ((execute_skill_streaming (some sk) (some ()) oracle dur analyze req eidS saS caS).1).head? =
      some (.execStart eidS req.skill_name req.device_hostname sk.steps.length) ∧
    (execute_skill_streaming (some sk) (some ()) oracle dur analyze req eidS saS caS).2.isSome = true ∧
    (∀ S, (execute_skill_streaming (some sk) (some ()) oracle dur analyze req eidS saS caS).2 = some S →
      ((execute_skill_streaming (some sk) (some ()) oracle dur analyze req eidS saS caS).1).getLast? =
        some (.execComplete eidS S.status.value S) ∧
      ((execute_skill_streaming (some sk) (some ()) oracle dur analyze req eidS saS caS).1).filterMap stepStartIdx? =
        List.range' 0 S.steps.length ∧
      ((execute_skill_streaming (some sk) (some ()) oracle dur analyze req eidS saS caS).1).filterMap stepCompleteIdx? =
        List.range' 0 S.steps.length ∧
      S.status = (execute_skill (some sk) (some ()) oracle dur analyze req eidN saN caN).status ∧
      S.steps.map StepRes.status =
        (execute_skill (some sk) (some ()) oracle dur analyze req eidN saN caN).steps.map StepRes.status ∧
      S.steps.map StepRes.error =
        (execute_skill (some sk) (some ()) oracle dur analyze req eidN saN caN).steps.map StepRes.error ∧
      S.steps.map StepRes.step_name =
        (execute_skill (some sk) (some ()) oracle dur analyze req eidN saN caN).steps.map StepRes.step_name ∧
      S.analysis = (execute_skill (some sk) (some ()) oracle dur analyze req eidN saN caN).analysis ∧
      List.Forall₂ (fun (a b : StepRes) =>
          b.output = a.output ∨ b.output = a.output ++ failMarker a.error)
        S.steps (execute_skill (some sk) (some ()) oracle dur analyze req eidN saN caN).steps) := by
  obtain ⟨hf, hp, hao, fresh, hsteps, hrel⟩ :=
    nsLoop_sLoop oracle dur sk.steps.length sk.steps 0 req.parameters [] [] none
  obtain ⟨hids, hidc⟩ := sLoop_evs_idx oracle dur sk.steps.length sk.steps 0 req.parameters
  obtain ⟨hms, hme, hmn⟩ := forall2_rel_maps _ _ hrel
  simp only [execute_skill, execute_skill_streaming]
  refine ⟨by simp, rfl, ?_⟩
  intro S hS
  simp only [Option.some.injEq] at hS
  subst hS
  have hentlen : ∀ (l : List SStep), (l.map fun s =>
      (⟨s.step_name, s.status, "", s.output, s.error, s.duration_ms⟩ : StepRes)).length =
      l.length := fun l => List.length_map l _
  refine ⟨?_, ?_, ?_, ?_, ?_, ?_, ?_, ?_, ?_⟩
  · rw [Engine.getLast?_cons_ne_nil _ (by simp), List.getLast?_concat]
    rcases hfl : (sLoop oracle dur sk.steps.length sk.steps 0 req.parameters).failed
      <;> simp [hfl, ExecStatus.value]
  · simp only [List.filterMap_cons, stepStartIdx?, List.filterMap_append]
    have h2 : ∀ (l : List SEvent), (l = [SEvent.analyzingEv] ∨ l = []) →
        l.filterMap stepStartIdx? = [] := by
      rintro l (rfl | rfl) <;> rfl
    rw [hids]
    simp [hentlen, stepStartIdx?, apply_ite (List.filterMap stepStartIdx?)]
  · simp only [List.filterMap_cons, stepCompleteIdx?, List.filterMap_append]
    rw [hidc]
    simp [hentlen, stepCompleteIdx?, apply_ite (List.filterMap stepCompleteIdx?)]
  · rw [hf]
  · rw [hsteps]
    simp only [List.nil_append, List.map_map]
    rw [hms]
    congr 1
  · rw [hsteps]
    simp only [List.nil_append, List.map_map]
    rw [hme]
    congr 1
  · rw [hsteps]
    simp only [List.nil_append, List.map_map]
    rw [hmn]
    congr 1
  · rw [hf, hao]
    simp
  · rw [hsteps]
    simp only [List.nil_append]
    rw [List.forall₂_map_left_iff]
    refine List.Forall₂.imp ?_ hrel
    intro e n hr
    exact hr.2.2.2

/-- Witness for C4 (amended) on the continue-on-fail fixture. -/
theorem C4_streaming_matches_witness :
    (fxStreamCont.1).head? = some (.execStart "e5" "sk" "h1" 1) ∧
    fxStreamCont.2.isSome = true :=
  ⟨(C4_streaming_matches fxSkillCont fxFailTr (fun _ => 7) (fun _ => none) fxReqC
      "e4" "t0" "t1" "e5" "t0" "t1").1,
   (C4_streaming_matches fxSkillCont fxFailTr (fun _ => 7) (fun _ => none) fxReqC
      "e4" "t0" "t1" "e5" "t0" "t1").2.1⟩

end Executor

end Spec2Proof
